import Mathlib

/-!
Verification of the geometry core of the shiny 2D vector-graphics
rasterizer.  The Rust sources are embedded shallowly over exact rational
arithmetic: `f32` values become `ℚ`, mutable buffers become lists, and
panics become explicit `Except` errors.  Machine-integer indices become
`ℕ` (or `ℤ` where the source uses signed indices).
-/

namespace Shiny

/-- A point in 2D space (src/shapes/point.rs). -/
@[ext]
structure Point where
  x : ℚ
  y : ℚ
deriving Repr, DecidableEq

/-- Linear interpolation on scalars (src/math/interp.rs):
`(1.0 - t) * self + t * rhs`. -/
def lerp (a t b : ℚ) : ℚ := (1 - t) * a + t * b

/-- A 4-lane float vector (src/math/simd/mod.rs), one rational per lane. -/
structure Float4 where
  a : ℚ
  b : ℚ
  c : ℚ
  d : ℚ
deriving Repr, DecidableEq

namespace Float4

/-- Elementwise linear interpolation (src/math/simd/mod.rs, `Interpolate`):
`((1.0 - t) * *self) + (t * *rhs)`. -/
def lerp (v : Float4) (t : ℚ) (w : Float4) : Float4 :=
  ⟨(1 - t) * v.a + t * w.a, (1 - t) * v.b + t * w.b,
   (1 - t) * v.c + t * w.c, (1 - t) * v.d + t * w.d⟩

/-- `combine_high_low` (src/math/simd/mod.rs): high half of `self` into the
low half of the result, low half of `rhs` into the high half. -/
def combine_high_low (v w : Float4) : Float4 := ⟨v.c, v.d, w.a, w.b⟩

/-- `swap_high_low` (src/math/simd/mod.rs). -/
def swap_high_low (v : Float4) : Float4 := ⟨v.c, v.d, v.a, v.b⟩

end Float4

/-- A cubic Bézier curve given by 4 control points in parallel x/y arrays
(src/shapes/bezier/mod.rs, `Cubic`). -/
@[ext]
structure Cubic where
  x0 : ℚ
  x1 : ℚ
  x2 : ℚ
  x3 : ℚ
  y0 : ℚ
  y1 : ℚ
  y2 : ℚ
  y3 : ℚ
deriving Repr, DecidableEq

/-- `evaluate` (src/shapes/bezier/mod.rs): the matrix form `T * M * P` with
`T = [1, t, t^2, t^3]` and `M` the Bernstein-to-power-basis matrix.  The
row `T * M` is spelled out per column of `M` exactly as the source
multiplies it. -/
def evaluate (c : Cubic) (t : ℚ) : Point :=
  let w0 := 1 * 1 + t * (-3) + t ^ 2 * 3 + t ^ 3 * (-1)
  let w1 := 1 * 0 + t * 3 + t ^ 2 * (-6) + t ^ 3 * 3
  let w2 := 1 * 0 + t * 0 + t ^ 2 * 3 + t ^ 3 * (-3)
  let w3 := 1 * 0 + t * 0 + t ^ 2 * 0 + t ^ 3 * 1
  ⟨w0 * c.x0 + w1 * c.x1 + w2 * c.x2 + w3 * c.x3,
   w0 * c.y0 + w1 * c.y1 + w2 * c.y2 + w3 * c.y3⟩

/-- `split` (src/shapes/bezier/mod.rs): de Casteljau subdivision at `t`,
following the source's packed-lane computation lane for lane. -/
def split (c : Cubic) (t : ℚ) : Cubic × Cubic :=
  let mid_01_and_12 := Float4.lerp ⟨c.x0, c.y0, c.x1, c.y1⟩ t ⟨c.x1, c.y1, c.x2, c.y2⟩
  let mid_23_and_zero := Float4.lerp ⟨c.x2, c.y2, 0, 0⟩ t ⟨c.x3, c.y3, 0, 0⟩
  let mid_12_23 := mid_01_and_12.combine_high_low mid_23_and_zero
  let mid_01_12_and_12_23 := mid_01_and_12.lerp t mid_12_23
  let midpoint_low := mid_01_12_and_12_23.lerp t mid_01_12_and_12_23.swap_high_low
  (⟨c.x0, mid_01_and_12.a, mid_01_12_and_12_23.a, midpoint_low.a,
    c.y0, mid_01_and_12.b, mid_01_12_and_12_23.b, midpoint_low.b⟩,
   ⟨midpoint_low.a, mid_01_12_and_12_23.c, mid_23_and_zero.a, c.x3,
    midpoint_low.b, mid_01_12_and_12_23.d, mid_23_and_zero.b, c.y3⟩)

/-- A sample cubic used to instantiate hypothesis-bearing theorems (the
control points of the evaluation test in src/shapes/bezier/mod.rs). -/
def sampleCubic : Cubic := ⟨10, 3, 12, 6, 5, 11, 20, 15⟩

/-- `split2` (src/shapes/bezier/mod.rs): two single splits, the second
parameter rescaled into the remaining curve's local range. -/
def split2 (c : Cubic) (t1 t2 : ℚ) : Cubic × Cubic × Cubic :=
  let lr := split c t1
  let mr := split lr.2 ((t2 - t1) / (1 - t1))
  (lr.1, mr.1, mr.2)

/-- The loop of `splitn` (src/shapes/bezier/mod.rs): for each split
parameter, split the remainder at the parameter rescaled into the
remainder's range and append the left part's last 3 points; after the
loop, append the remainder's last 3 points.  Returns the appended x and
y values. -/
def splitnLoop : Cubic → ℚ → List ℚ → List ℚ × List ℚ
  | rem, _, [] => ([rem.x1, rem.x2, rem.x3], [rem.y1, rem.y2, rem.y3])
  | rem, prev, t :: ts =>
    let lr := split rem ((t - prev) / (1 - prev))
    let rest := splitnLoop lr.2 t ts
    (lr.1.x1 :: lr.1.x2 :: lr.1.x3 :: rest.1,
     lr.1.y1 :: lr.1.y2 :: lr.1.y3 :: rest.2)

/-- `splitn` (src/shapes/bezier/mod.rs): if the split list is non-empty,
append the curve's first point and then run the loop; if it is empty the
source appends nothing at all. -/
def splitn (c : Cubic) (ts : List ℚ) : List ℚ × List ℚ :=
  if ts.isEmpty then ([], [])
  else (c.x0 :: (splitnLoop c 0 ts).1, c.y0 :: (splitnLoop c 0 ts).2)

/-- The 4-point window starting at index `3*i` of a pair of point
buffers, read as a cubic curve (out-of-range entries default to 0). -/
def windowCubic (xs ys : List ℚ) (i : ℕ) : Cubic :=
  ⟨xs.getD (3 * i) 0, xs.getD (3 * i + 1) 0, xs.getD (3 * i + 2) 0,
   xs.getD (3 * i + 3) 0,
   ys.getD (3 * i) 0, ys.getD (3 * i + 1) 0, ys.getD (3 * i + 2) 0,
   ys.getD (3 * i + 3) 0⟩

/-- A list of split parameters strictly ascending from `prev`, every
element strictly below 1. -/
def validFrom (prev : ℚ) : List ℚ → Prop
  | [] => prev < 1
  | t :: ts => prev < t ∧ t < 1 ∧ validFrom t ts

/-- The i-th boundary of the split intervals: `prev` for `i = 0`, then
the split parameters, then 1. -/
def uAt (prev : ℚ) (ts : List ℚ) (i : ℕ) : ℚ :=
  (prev :: ts ++ [1]).getD i 1

/-- An axis-aligned rectangle (src/shapes/rect.rs): `left`/`right` are
the x extents; in the cpatch usage `top` holds the minimum y and
`bottom` the maximum y (see `coarse_bounds` and `normalize`). -/
structure Rect where
  left : ℚ
  right : ℚ
  top : ℚ
  bottom : ℚ
deriving Repr, DecidableEq

instance : Inhabited Rect := ⟨⟨0, 0, 0, 0⟩⟩

/-- `Rect::default` (src/shapes/rect.rs): the all-zero rectangle. -/
def Rect.rdefault : Rect := ⟨0, 0, 0, 0⟩

/-- Modelled from the spec: the `Rect | Rect` union operator used by
src/backends/common/cpatch/curve_bvh.rs is not defined under src/; per
the spec every node bound is the union of its members' bounds, combining
min/max per side (exactly like the in-src `Rect::add`). -/
def Rect.union (r s : Rect) : Rect :=
  ⟨min r.left s.left, max r.right s.right, min r.top s.top,
    max r.bottom s.bottom⟩

/-- Modelled from the spec: `Rect::area` used by the SAH cost in
src/backends/common/cpatch/curve_bvh.rs is not defined under src/; the
spec's SAH glossary makes the cost proportional to the bound's area,
i.e. width times height. -/
def Rect.area (r : Rect) : ℚ := (r.right - r.left) * (r.bottom - r.top)

/-- `Rect::centroid` (src/shapes/rect.rs). -/
def Rect.centroid (r : Rect) : Point :=
  ⟨(r.left + r.right) / 2, (r.top + r.bottom) / 2⟩

/-- `coarse_bounds` (src/shapes/bezier/mod.rs): the min/max of the 4
control points per axis (the lane semantics of the vector kernel's
`horizontal_min_max4` are modelled from the spec, the kernel being an
external collaborator). -/
def coarse_bounds (c : Cubic) : Rect :=
  ⟨min (min (min c.x0 c.x1) c.x2) c.x3, max (max (max c.x0 c.x1) c.x2) c.x3,
   min (min (min c.y0 c.y1) c.y2) c.y3, max (max (max c.y0 c.y1) c.y2) c.y3⟩

/-- A path segment record, as constructed by the cpatch code and its
test (src/backends/common/cpatch/change_list.rs): a contiguous run of
`length` points where every 3 points after the first form one curve. -/
structure Segment where
  length : ℕ
deriving Repr, DecidableEq

/-- A path as the cpatch code consumes it: a segment table plus parallel
x/y point buffers (src/backends/common/cpatch/change_list.rs test). -/
structure Path where
  segments : List Segment
  x : List ℚ
  y : List ℚ
deriving Repr, DecidableEq

/-- The cubic occupying `path.x[fp..fp+4]` / `path.y[fp..fp+4]`. -/
def cubicAt (path : Path) (fp : ℕ) : Cubic :=
  ⟨path.x.getD fp 0, path.x.getD (fp + 1) 0, path.x.getD (fp + 2) 0,
   path.x.getD (fp + 3) 0,
   path.y.getD fp 0, path.y.getD (fp + 1) 0, path.y.getD (fp + 2) 0,
   path.y.getD (fp + 3) 0⟩

/-- A curve record of the BVH (src/backends/common/cpatch/curve_bvh.rs). -/
structure Curve where
  centroid : Point
  segment_id : ℕ
  first_point : ℕ
deriving Repr, DecidableEq

instance : Inhabited Curve := ⟨⟨⟨0, 0⟩, 0, 0⟩⟩

/-- `Builder::get_slice` (src/backends/common/cpatch/curve_bvh.rs). -/
def get_slice (curve : Curve) (path : Path) : Cubic :=
  cubicAt path curve.first_point

/-- `Builder::compute_bounds` (src/backends/common/cpatch/curve_bvh.rs):
fold the union of the curves' coarse bounds, seeded with the first
curve's bounds; the all-zero default for an empty slice. -/
def compute_bounds : List Curve → Path → Rect
  | [], _ => Rect.rdefault
  | c :: cs, path =>
    cs.foldl (fun bounds curve =>
      bounds.union (coarse_bounds (get_slice curve path)))
      (coarse_bounds (get_slice c path))

/-- The union of a list of rectangles, seeded at its head (used to state
bounds invariants; empty list gives the all-zero default). -/
def unionRects : List Rect → Rect
  | [] => Rect.rdefault
  | r :: rs => rs.foldl Rect.union r

/-- `Leaf` (src/backends/common/cpatch/curve_bvh.rs). -/
structure Leaf where
  first_curve : ℕ
  num_curves : ℕ
deriving Repr, DecidableEq

/-- `Data` (src/backends/common/cpatch/curve_bvh.rs): a node is empty, a
leaf over a curve range, or a branch holding its left child's index
(right child at index + 1). -/
inductive Data where
  | empty : Data
  | leaf : Leaf → Data
  | branch : (left_then_right : ℕ) → Data
deriving Repr, DecidableEq

/-- `Node::is_leaf` (src/backends/common/cpatch/curve_bvh.rs). -/
def Data.isLeaf : Data → Bool
  | .leaf _ => true
  | _ => false

/-- `Node` (src/backends/common/cpatch/curve_bvh.rs): the interior
mutability of `last_touched` becomes a plain field. -/
structure Node where
  bbox : Rect
  last_touched : ℕ
  data : Data
deriving Repr, DecidableEq

instance : Inhabited Node := ⟨⟨Rect.rdefault, 0, Data.empty⟩⟩

/-- The split axis (src/backends/common/cpatch/curve_bvh.rs). -/
inductive SplitAxis where
  | X : SplitAxis
  | Y : SplitAxis
deriving Repr, DecidableEq

/-- The centroid coordinate selected by the axis, as `evaluate_sah` and
the partition loop read it. -/
def axisPos (axis : SplitAxis) (c : Curve) : ℚ :=
  match axis with
  | .X => c.centroid.x
  | .Y => c.centroid.y

/-- `f32::MAX`, the initial best cost in `find_split_axis`. -/
def FMAX : ℚ := 340282346638528859811704183484516925440

/-- One iteration of the accumulation loop of `Builder::evaluate_sah`
(src/backends/common/cpatch/curve_bvh.rs): the state is
`(left, num_left, right, num_right)`; the `left`/`right` accumulators
start as `None` and are only ever updated through `Option::map`, exactly
as the source does. -/
def sahStep (curves : List Curve) (leaf : Leaf) (axis : SplitAxis)
    (position : ℚ) (path : Path)
    (st : Option Rect × ℕ × Option Rect × ℕ) (i : ℕ) :
    Option Rect × ℕ × Option Rect × ℕ :=
  let curve := curves.getD (leaf.first_curve + i) default
  let slice := get_slice curve path
  if axisPos axis curve < position then
    ⟨st.1.map (fun b => b.union (coarse_bounds slice)), st.2.1 + 1,
      st.2.2.1, st.2.2.2⟩
  else
    ⟨st.1, st.2.1, st.2.2.1.map (fun b => b.union (coarse_bounds slice)),
      st.2.2.2 + 1⟩

/-- `Builder::evaluate_sah` (src/backends/common/cpatch/curve_bvh.rs):
fold the step over the leaf's member indices, then score
`num_left * area(left) + num_right * area(right)` with a `None`
accumulator contributing 0 (`map_or(0.0, ..)`). -/
def evaluate_sah (curves : List Curve) (leaf : Leaf) (axis : SplitAxis)
    (position : ℚ) (path : Path) : ℚ :=
  let st := (List.range leaf.num_curves).foldl
    (sahStep curves leaf axis position path) (none, 0, none, 0)
  (st.1.elim 0 fun lb => (st.2.1 : ℚ) * lb.area) +
    (st.2.2.1.elim 0 fun rb => (st.2.2.2 : ℚ) * rb.area)

/-- One candidate probe of `Builder::find_split_axis`
(src/backends/common/cpatch/curve_bvh.rs) on the given axis: replace the
current best when the candidate's SAH cost is strictly cheaper. -/
def fsaStep (curves : List Curve) (leaf : Leaf) (path : Path)
    (axis : SplitAxis) (best : SplitAxis × ℚ × ℚ) (i : ℕ) :
    SplitAxis × ℚ × ℚ :=
  let curve := curves.getD (leaf.first_curve + i) default
  let cost := evaluate_sah curves leaf axis (axisPos axis curve) path
  if cost < best.2.2 then (axis, axisPos axis curve, cost) else best

/-- `Builder::find_split_axis` (src/backends/common/cpatch/curve_bvh.rs):
try every member curve's centroid x then y as a candidate position,
keeping the strictly cheapest `(axis, position, cost)`, starting from
`(X, 0.0, f32::MAX)`. -/
def find_split_axis (curves : List Curve) (leaf : Leaf) (path : Path) :
    SplitAxis × ℚ × ℚ :=
  let afterX := (List.range leaf.num_curves).foldl
    (fsaStep curves leaf path SplitAxis.X) (SplitAxis.X, 0, FMAX)
  (List.range leaf.num_curves).foldl
    (fsaStep curves leaf path SplitAxis.Y) afterX

/-- Exchange the elements at two positions of a list (`Vec::swap`). -/
def swapL (l : List Curve) (i j : ℕ) : List Curve :=
  (l.set i (l.getD j default)).set j (l.getD i default)

/-- The in-place two-pointer partition loop of `Builder::subdivide`
(src/backends/common/cpatch/curve_bvh.rs): `while i <= j`, advance `i`
past curves whose centroid coordinate is below the split position,
otherwise swap to the back and retreat `j`.  The indices are signed, as
in the source (`isize`), since `j` ends at `i - 1`. -/
def partGo (axis : SplitAxis) (pos : ℚ) (cs : List Curve) (i j : ℤ) :
    List Curve × ℤ :=
  if h : i ≤ j then
    if axisPos axis (cs.getD i.toNat default) < pos then
      partGo axis pos cs (i + 1) j
    else
      partGo axis pos (swapL cs i.toNat j.toNat) i (j - 1)
  else (cs, i)
termination_by (j + 1 - i).toNat
decreasing_by
  all_goals omega

/-- `Builder::subdivide` (src/backends/common/cpatch/curve_bvh.rs),
called by `build` on the root only (the source never recurses): find the
split, partition the records in place, and either stop (too few curves,
or split cost not below the un-split cost) or turn the node into a
branch and push the two child leaves. -/
def subdivide (nodes : List Node) (curves : List Curve) (node_id : ℕ)
    (path : Path) : List Node × List Curve :=
  let left_idx := nodes.length
  let node := nodes.getD node_id default
  match node.data with
  | Data.leaf leaf =>
    let fsa := find_split_axis curves leaf path
    if leaf.num_curves ≤ 1 then (nodes, curves)
    else
      let pr := partGo fsa.1 fsa.2.1 curves (leaf.first_curve : ℤ)
        ((leaf.first_curve : ℤ) + (leaf.num_curves : ℤ) - 1)
      let curves2 := pr.1
      let i := pr.2.toNat
      let left_count := i - leaf.first_curve
      let node_cost := (leaf.num_curves : ℚ) * node.bbox.area
      if node_cost ≤ fsa.2.2 then (nodes, curves2)
      else
        let leftSlice := (curves2.drop leaf.first_curve).take left_count
        let rightSlice := (curves2.drop i).take
          (leaf.first_curve + leaf.num_curves - i)
        let nodes2 := nodes.set node_id
          ⟨node.bbox, node.last_touched, Data.branch left_idx⟩
        (nodes2 ++
          [⟨compute_bounds leftSlice path, 0,
              Data.leaf ⟨leaf.first_curve, left_count⟩⟩,
            ⟨compute_bounds rightSlice path, 0,
              Data.leaf ⟨i, leaf.num_curves - left_count⟩⟩],
         curves2)
  | _ => (nodes, curves)

/-- The per-segment curve-record collection loop of `Builder::build`
(src/backends/common/cpatch/curve_bvh.rs): one record per curve, with
the centroid of the curve's coarse bounds and the curve's first-point
offset into the path buffers. -/
def buildCurvesGo (path : Path) : List Segment → ℕ → ℕ → List Curve
  | [], _, _ => []
  | seg :: rest, segment_id, offset =>
    ((List.range ((seg.length - 1) / 3)).map fun j =>
      (⟨(coarse_bounds (cubicAt path (offset + 3 * j))).centroid,
        segment_id, offset + 3 * j⟩ : Curve)) ++
      buildCurvesGo path rest (segment_id + 1) (offset + seg.length)

/-- The number of curves of a path: `(segment.length - 1) / 3` summed
over the segments (src/backends/common/cpatch/curve_bvh.rs). -/
def numCurves (path : Path) : ℕ :=
  (path.segments.map (fun seg => (seg.length - 1) / 3)).sum

/-- `Builder::build` (src/backends/common/cpatch/curve_bvh.rs): collect
the curve records, push the root leaf over all of them plus one `Empty`
node, and subdivide the root once. -/
def build (path : Path) : List Node × List Curve :=
  let curves := buildCurvesGo path path.segments 0 0
  let root : Node :=
    ⟨compute_bounds curves path, 0, Data.leaf ⟨0, numCurves path⟩⟩
  let emptyNode : Node := ⟨Rect.rdefault, 0, Data.empty⟩
  subdivide [root, emptyNode] curves 0 path

/-- `CurveBvh::intersect` (src/backends/common/cpatch/curve_bvh.rs),
with fuel for the non-structural recursion: `none` signals either fuel
exhaustion or the `Data::Empty => unreachable!()` branch, neither of
which occurs on built trees. -/
def intersect (nodes : List Node) (origin : ℕ) :
    ℕ → ℕ → List (ℕ × Leaf) → Option (List (ℕ × Leaf))
  | 0, _, _ => none
  | fuel + 1, current, buffer =>
    if origin = current then some buffer
    else
      match (nodes.getD current default).data with
      | Data.empty => none
      | Data.leaf l => some (buffer ++ [(current, l)])
      | Data.branch lt =>
        match intersect nodes origin fuel lt buffer with
        | none => none
        | some b1 => intersect nodes origin fuel (lt + 1) b1

/-- `CurveBvh::find_intersecting_with`
(src/backends/common/cpatch/curve_bvh.rs): clear the buffer and traverse
from the root; the node's own bounding box is passed but never used. -/
def find_intersecting_with (nodes : List Node) (node_idx : ℕ) :
    Option (List (ℕ × Leaf)) :=
  intersect nodes node_idx nodes.length 0 []

/-- One step of an option-seeded union fold, used to compare rectangle
unions up to permutation. -/
def unionStep (acc : Option Rect) (r : Rect) : Option Rect :=
  some (acc.elim r fun b => b.union r)

/-- The SAH cost as the spec states it: partition the leaf's member
curves into left/right by centroid-coordinate versus position, then
`count_left * area(union of left coarse bounds) +
count_right * area(union of right coarse bounds)`. -/
def sahCostSpec (curves : List Curve) (leaf : Leaf) (axis : SplitAxis)
    (position : ℚ) (path : Path) : ℚ :=
  let members := (curves.drop leaf.first_curve).take leaf.num_curves
  let lefts := members.filter (fun c => axisPos axis c < position)
  let rights := members.filter (fun c => !decide (axisPos axis c < position))
  (lefts.length : ℚ) *
      (unionRects (lefts.map fun c => coarse_bounds (get_slice c path))).area +
    (rights.length : ℚ) *
      (unionRects (rights.map fun c => coarse_bounds (get_slice c path))).area

/-- A sample path with two curves in two segments, with disjoint bounds
`(2,3)x(2,3)` and `(0,1)x(0,1)`. -/
def samplePath2 : Path :=
  ⟨[⟨4⟩, ⟨4⟩], [2, 2, 3, 3, 0, 0, 1, 1], [2, 2, 3, 3, 0, 0, 1, 1]⟩

/-- The curve records the builder collects for `samplePath2`. -/
def sampleCurves2 : List Curve :=
  buildCurvesGo samplePath2 samplePath2.segments 0 0

/-- The builder's curve records for a path. -/
def pathCurves (path : Path) : List Curve :=
  buildCurvesGo path path.segments 0 0

/-- C2 counterexample: on a concrete two-curve path whose curves all lie
in `[2,6]x[2,6]` and share their centroid, the builder still splits (all
curves land in the right child, the left child is empty), producing 4
nodes (more than `2N-1 = 3`), and the branch bound `(2,6)x(2,6)` differs
from the union of its children's bounds, which includes the empty
child's all-zero default rectangle. -/
def samplePathDeg : Path :=
  ⟨[⟨4⟩, ⟨4⟩], [2, 2, 6, 6, 3, 3, 5, 5], [2, 2, 6, 6, 3, 3, 5, 5]⟩

/-- `Node::is_branch`-style discriminator on node data
(src/backends/common/cpatch/curve_bvh.rs). -/
def Data.isBranch : Data → Bool
  | .branch _ => true
  | _ => false

/-- The `(index, leaf)` pairs of every node holding `Data::Leaf`. -/
def leafPairs (nodes : List Node) : List (ℕ × Leaf) :=
  nodes.enum.filterMap fun p =>
    match p.2.data with
    | Data.leaf l => some (p.1, l)
    | _ => none

/-- Set a node's `last_touched` counter
(`node.last_touched.replace(iteration)` in
src/backends/common/cpatch/mod.rs). -/
def markNode (nodes : List Node) (idx iteration : ℕ) : List Node :=
  match nodes.get? idx with
  | none => nodes
  | some n => nodes.set idx ⟨n.bbox, iteration, n.data⟩

/-- One origin-leaf step of the flattening driver's pass
(src/backends/common/cpatch/mod.rs, lines 91-141), with the intersection
engine abstracted into a leaf-pair oracle: skip non-leaves; skip leaves
whose counter equals the pass index when the pass index is positive;
otherwise scan the node, query `find_intersecting_with`, filter the
candidates whose counter equals the pass index, and on the first oracle
hit mark both nodes with the pass index and record the event.  The
state is `(nodes, scanned origins, mark events)`. -/
def scanStep (oracle : ℕ → ℕ → Bool) (iteration : ℕ)
    (st : List Node × List ℕ × List (ℕ × ℕ)) (idx : ℕ) :
    List Node × List ℕ × List (ℕ × ℕ) :=
  let nodes := st.1
  let node := nodes.getD idx default
  if node.data.isLeaf then
    if 0 < iteration ∧ node.last_touched = iteration then st
    else
      let cands := ((find_intersecting_with nodes idx).getD []).filter
        fun p => (nodes.getD p.1 default).last_touched ≠ iteration
      match cands.find? (fun p => oracle idx p.1) with
      | some p =>
        (markNode (markNode nodes idx iteration) p.1 iteration,
          st.2.1 ++ [idx], st.2.2 ++ [(idx, p.1)])
      | none => (nodes, st.2.1 ++ [idx], st.2.2)
  else st

/-- One pass of the flattening driver's node scan
(src/backends/common/cpatch/mod.rs). -/
def scanPass (nodes : List Node) (oracle : ℕ → ℕ → Bool) (iteration : ℕ) :
    List Node × List ℕ × List (ℕ × ℕ) :=
  (List.range nodes.length).foldl (scanStep oracle iteration) (nodes, [], [])

/-- The driver's origin-skip test (src/backends/common/cpatch/mod.rs,
line 92): `iteration > 0 && node.last_touched.get() == iteration`. -/
def skip_as_origin (iteration counter : ℕ) : Bool :=
  decide (0 < iteration) && decide (counter = iteration)

/-- Marking a leaf on a found intersection stores the current pass index
(src/backends/common/cpatch/mod.rs, lines 128-131). -/
def mark_counter (iteration : ℕ) : ℕ := iteration

/-- Freshly built nodes carry `Cell::new(0)`
(src/backends/common/cpatch/curve_bvh.rs). -/
def built_counter : ℕ := 0

/-- The `f32` approximate-equality threshold (src/math/cmp.rs):
`F32_APPROX_EQUAL_THRESHOLD = 1e-5`, compared as `|other - self| <= eps`. -/
def f32Threshold : ℚ := 1 / 100000

/-- A working view on a parameter sub-range of a curve (`CurvePart`,
src/shapes/bezier/intersection.rs).  The source's `end` field is named
`stop` (`end` is a Lean keyword). -/
structure CurvePart where
  points : Cubic
  start : ℚ
  stop : ℚ
deriving Repr, DecidableEq

/-- `CurvePart::length` (src/shapes/bezier/intersection.rs). -/
def CurvePart.length (c : CurvePart) : ℚ := c.stop - c.start

/-- `CurvePart::get` (src/shapes/bezier/intersection.rs): the middle
piece of the two-parameter split of the original points. -/
def CurvePart.get (c : CurvePart) : Cubic := (split2 c.points c.start c.stop).2.1

/-- `CurvePart::split` (src/shapes/bezier/intersection.rs): cut the
range at `start + at * (end - start)`. -/
def CurvePart.split (c : CurvePart) (t : ℚ) : CurvePart × CurvePart :=
  let a := c.start + t * (c.stop - c.start)
  (⟨c.points, c.start, a⟩, ⟨c.points, a, c.stop⟩)

/-- `CurvePart::map_to_original` (src/shapes/bezier/intersection.rs). -/
def CurvePart.map_to_original (c : CurvePart) (t : ℚ) : ℚ :=
  c.start + t * (c.stop - c.start)

/-- `f32::approx_eq` (src/math/cmp.rs): `(other - self).abs() <= 1e-5`. -/
def approx_eq (a b : ℚ) : Bool := decide (|b - a| ≤ f32Threshold)

/-- The `calc` closure of `find_intersections_in_range`
(src/shapes/bezier/intersection.rs): clip the curve against the other,
map the clip interval back into the original parameter space, and
return the updated part together with the remaining-length proportion.
The clip computation itself (fat lines and line clipping, which divide
by `f32::sqrt`) is a parameter. -/
def calcStep (clipFn : Cubic → Cubic → ℚ × ℚ) (curve against : CurvePart) :
    CurvePart × ℚ :=
  let initial_length := curve.length
  let se := clipFn curve.get against.get
  let c2 : CurvePart :=
    ⟨curve.points, curve.map_to_original se.1, curve.map_to_original se.2⟩
  (c2, c2.length / initial_length)

/-- The fatal outcomes of the intersection search: the two `assert!`
panics of the loop, the `ArrayVec::push` capacity panic, and fuel
exhaustion of the embedding (never reached by the claims below). -/
inductive IntersectError where
  | maxIterations : IntersectError
  | maxIntersections : IntersectError
  | pushOverflow : IntersectError
  | fuelExhausted : IntersectError
deriving Repr, DecidableEq

/-- `ArrayVec::push` at capacity 9 (src/utils/arrayvec.rs): write if the
length is below the capacity, panic otherwise. -/
def pushIntersection (acc : List (ℚ × ℚ)) (v : ℚ × ℚ) :
    Except IntersectError (List (ℚ × ℚ)) :=
  if acc.length < 9 then .ok (acc ++ [v]) else .error .pushOverflow

/-- The branch on the remaining proportion after a clip
(src/shapes/bezier/intersection.rs, the tail of the loop body of
`find_intersections_in_range`): `a2` and `b2` are the two curves'
current ranges after the clip, and `go` is the search's recursive
entry.  The branches: no intersection, converged (record unless a
near-duplicate of the last entry), bisect the longer current range at
its midpoint and recurse on the halves, or iterate. -/
def fiirBranch
    (go : CurvePart → CurvePart → ℕ → List (ℚ × ℚ) →
      Except IntersectError (List (ℚ × ℚ)))
    (a2 b2 : CurvePart) (proportion : ℚ) (num_iterations : ℕ)
    (acc : List (ℚ × ℚ)) : Except IntersectError (List (ℚ × ℚ)) :=
  if proportion < 0 then .ok acc
  else if approx_eq (a2.length + b2.length) 0 then
    match acc.getLast? with
    | some prev =>
      if approx_eq prev.1 a2.start then .ok acc
      else pushIntersection acc (a2.start, b2.start)
    | none => pushIntersection acc (a2.start, b2.start)
  else if 8 / 10 < proportion then
    if b2.length < a2.length then
      match go (a2.split (1 / 2)).1 b2 0 acc with
      | .error e => .error e
      | .ok acc2 => go (a2.split (1 / 2)).2 b2 0 acc2
    else
      match go a2 (b2.split (1 / 2)).1 0 acc with
      | .error e => .error e
      | .ok acc2 => go a2 (b2.split (1 / 2)).2 0 acc2
  else go a2 b2 (num_iterations + 1) acc

/-- `find_intersections_in_range` (src/shapes/bezier/intersection.rs):
the iteration/recursion structure, fuel-bounded, with the clip function
abstracted.  One loop entry: assert the iteration cap, assert the
result container is not full, clip the even/odd curve, and hand the
updated ranges to `fiirBranch`. -/
def fiirGo (clipFn : Cubic → Cubic → ℚ × ℚ) :
    ℕ → CurvePart → CurvePart → ℕ → List (ℚ × ℚ) →
    Except IntersectError (List (ℚ × ℚ))
  | 0, _, _, _, _ => .error .fuelExhausted
  | fuel + 1, a, b, num_iterations, acc =>
    if 15 ≤ num_iterations then .error .maxIterations
    else if acc.length = 9 then .error .maxIntersections
    else if num_iterations % 2 = 0 then
      let r := calcStep clipFn a b
      fiirBranch (fiirGo clipFn fuel) r.1 b r.2 num_iterations acc
    else
      let r := calcStep clipFn b a
      fiirBranch (fiirGo clipFn fuel) a r.1 r.2 num_iterations acc

/-- `find` (src/shapes/bezier/intersection.rs): run the search over the
full `[0,1]` ranges of both curves with an empty result container. -/
def findIntersections (clipFn : Cubic → Cubic → ℚ × ℚ) (fuel : ℕ)
    (ca cb : Cubic) : Except IntersectError (List (ℚ × ℚ)) :=
  fiirGo clipFn fuel ⟨ca, 0, 1⟩ ⟨cb, 0, 1⟩ 0 []

/-- A pending curve replacement (src/backends/common/cpatch/change_list.rs,
struct Replace): `position` is the index of the replaced curve's first
point in the path's point buffers, `segment_id` the owning segment, and
`[first_point, one_past_last_point)` the recorded replacement run inside
the change list's own x/y buffers. -/
structure Replace where
  position : ℕ
  segment_id : ℕ
  first_point : ℕ
  one_past_last_point : ℕ
deriving Repr, DecidableEq

/-- The change list (src/backends/common/cpatch/change_list.rs): parallel
x/y buffers of recorded replacement points plus the pending `Replace`
records. -/
structure ChangeList where
  x : List ℚ
  y : List ℚ
  changes : List Replace
deriving Repr, DecidableEq

/-- The replacement run `buf[first_point..one_past_last_point]` a record
references (the slices `new_x` / `new_y` taken inside
`ChangeList::apply`). -/
def runOf (buf : List ℚ) (c : Replace) : List ℚ :=
  (buf.drop c.first_point).take (c.one_past_last_point - c.first_point)

/-- The pending records sorted by ascending path position
(`self.changes.sort_by(|a, b| a.position.cmp(&b.position))`); Rust's
`sort_by` is a stable sort, modelled by the stable insertion sort. -/
def ChangeList.sortedChanges (cl : ChangeList) : List Replace :=
  List.insertionSort (fun a b => a.position ≤ b.position) cl.changes

/-- One iteration of the loop in `ChangeList::apply`: splice the record's
replacement run over the old 4-point span starting at
`position + offset` in both point buffers (Rust
`splice(position..=position + 3, ...)` removes the four points at
indices `position..position + 3` and inserts the run), grow the owning
segment's recorded length by the run's point-count delta, and grow the
running offset by the same delta.  The state is the path being patched
together with the running offset.  (Rust computes `new_x.len() - 4` in
`usize`, which panics in debug builds when the run is shorter than 4
points; the theorems below only concern runs of at least 4 points, where
truncated subtraction agrees.) -/
def ChangeList.applyStep (cl : ChangeList) (acc : Path × ℕ)
    (change : Replace) : Path × ℕ :=
  let position := change.position + acc.2
  let new_x := runOf cl.x change
  let new_y := runOf cl.y change
  (⟨acc.1.segments.set change.segment_id
      ⟨(acc.1.segments.getD change.segment_id ⟨0⟩).length +
        (new_x.length - 4)⟩,
    acc.1.x.take position ++ new_x ++ acc.1.x.drop (position + 4),
    acc.1.y.take position ++ new_y ++ acc.1.y.drop (position + 4)⟩,
   acc.2 + (new_x.length - 4))

/-- `ChangeList::apply` (src/backends/common/cpatch/change_list.rs):
sort the records by path position, then fold the splicing step over them
starting from the unpatched path and offset 0. -/
def ChangeList.apply (cl : ChangeList) (path : Path) : Path :=
  (cl.sortedChanges.foldl cl.applyStep (path, 0)).1

/-- Spec-side validity of a record list `(position, run)` against a point
buffer, with `base` the least admissible next position: positions are
ascending with consecutive records at least 3 apart, every run holds at
least 4 points, every replaced span `[position, position + 3]` lies
inside the buffer, and each run's first/last points equal the buffer's
points at the span's two ends. -/
def ValidRecs (xs : List ℚ) : ℕ → List (ℕ × List ℚ) → Prop
  | _, [] => True
  | base, (p, r) :: rest =>
      base ≤ p ∧ 4 ≤ r.length ∧ p + 3 < xs.length ∧
        r.getD 0 0 = xs.getD p 0 ∧
        r.getD (r.length - 1) 0 = xs.getD (p + 3) 0 ∧
        ValidRecs xs (p + 3) rest

/-- Spec-side description of the patched buffer from `base` onwards: the
original buffer with each record's old 4-point span
`[position, position + 3]` replaced by that record's recorded points.
Consecutive spans may share their boundary point (positions exactly 3
apart), so each run is emitted without its last point and the recursion
re-enters at the span's last index `position + 3`; under `ValidRecs` the
run's last point equals the buffer's point there, which the continuation
re-emits, so each span is replaced by its full run (proved as the
head-form equation in the C6 theorem). -/
def specPatch (xs : List ℚ) : ℕ → List (ℕ × List ℚ) → List ℚ
  | base, [] => xs.drop base
  | base, (p, r) :: rest =>
      (xs.drop base).take (p - base) ++ r.dropLast ++ specPatch xs (p + 3) rest

/-- The segment-table effect of `ChangeList::apply`: each record grows
its owning segment's recorded length by the record's point-count delta
`run length - 4`. -/
def bumpSegs (clx : List ℚ) (segs : List Segment) (recs : List Replace) :
    List Segment :=
  recs.foldl
    (fun s c =>
      s.set c.segment_id
        ⟨(s.getD c.segment_id ⟨0⟩).length + ((runOf clx c).length - 4)⟩)
    segs

/-- The path of the `replace` test in
src/backends/common/cpatch/change_list.rs: one segment of recorded
length 6 over the point buffers `[1..7]`. -/
def c6TestPath : Path := ⟨[⟨6⟩], [1, 2, 3, 4, 5, 6, 7], [1, 2, 3, 4, 5, 6, 7]⟩

/-- The change list of that test: a 4-point replacement at position 3
recorded first, then a 7-point replacement at position 0, sharing the
buffers `[4, 100, 100, 7, 1, -2, -3, -4, -5, -6, 4]`. -/
def c6TestChanges : ChangeList :=
  ⟨[4, 100, 100, 7, 1, -2, -3, -4, -5, -6, 4],
   [4, 100, 100, 7, 1, -2, -3, -4, -5, -6, 4],
   [⟨3, 0, 0, 4⟩, ⟨0, 0, 4, 11⟩]⟩

/-- A point with real coordinates, for the line operations whose
construction divides by a square root (src/shapes/line.rs). -/
@[ext]
structure RPoint where
  x : ℝ
  y : ℝ

/-- A line held in standard form `a*x + b*y + c = 0` (src/shapes/line.rs). -/
structure Line where
  a : ℝ
  b : ℝ
  c : ℝ

/-- `Line::new` (src/shapes/line.rs): store the coefficients divided by
`sqrt(a*a + b*b)`. -/
noncomputable def Line.new (a b c : ℝ) : Line :=
  let div := Real.sqrt (a * a + b * b)
  ⟨a / div, b / div, c / div⟩

/-- `Line::between` (src/shapes/line.rs): if the two x-coordinates are
approximately equal, return `Line::new(p1.x, 0.0, 0.0)`; otherwise build
the line from the slope through the two points. -/
noncomputable def Line.between (p1 p2 : RPoint) : Line :=
  if |p2.x - p1.x| ≤ (f32Threshold : ℝ) then Line.new p1.x 0 0
  else
    let slope := (p2.y - p1.y) / (p2.x - p1.x)
    let offset := -(slope * p1.x) + p1.y
    Line.new slope (-1) offset

/-- `Line::signed_distance_to` (src/shapes/line.rs):
`a * point.x + b * point.y + c`. -/
def Line.signed_distance_to (l : Line) (p : RPoint) : ℝ :=
  l.a * p.x + l.b * p.y + l.c

/-- The left half produced by `split` traces the original curve,
reparametrized: a polynomial identity, valid for all parameters. -/
theorem split_left_at (c : Cubic) (t s : ℚ) :
    evaluate (split c t).1 s = evaluate c (s * t) := by
  apply Point.ext <;>
    simp only [evaluate, split, Float4.lerp, Float4.combine_high_low,
      Float4.swap_high_low] <;>
    ring

/-- The right half produced by `split` traces the original curve,
reparametrized: a polynomial identity, valid for all parameters. -/
theorem split_right_at (c : Cubic) (t s : ℚ) :
    evaluate (split c t).2 s = evaluate c (t + s * (1 - t)) := by
  apply Point.ext <;>
    simp only [evaluate, split, Float4.lerp, Float4.combine_high_low,
      Float4.swap_high_low] <;>
    ring

/-- C8: for every cubic curve, every `t` in `(0,1)` and every `s` in
`[0,1]`, the de Casteljau split at `t` satisfies
`left.at(s) = curve.at(s*t)` and `right.at(s) = curve.at(t + s*(1-t))`
exactly, over exact arithmetic. -/
theorem c8_split_consistency (c : Cubic) (t s : ℚ)
    (ht0 : 0 < t) (ht1 : t < 1) (hs0 : 0 ≤ s) (hs1 : s ≤ 1) :
    evaluate (split c t).1 s = evaluate c (s * t) ∧
      evaluate (split c t).2 s = evaluate c (t + s * (1 - t)) :=
  ⟨split_left_at c t s, split_right_at c t s⟩

theorem getD_cons_three (x y z : ℚ) (l : List ℚ) (n : ℕ) :
    (x :: y :: z :: l).getD (n + 3) 0 = l.getD n 0 := rfl

theorem windowCubic_succ (a b1 b2 b3 a2 c1 c2 c3 : ℚ)
    (rest rest2 : List ℚ) (i : ℕ) :
    windowCubic (a :: b1 :: b2 :: b3 :: rest) (a2 :: c1 :: c2 :: c3 :: rest2)
        (i + 1) =
      windowCubic (b3 :: rest) (c3 :: rest2) i := by
  have h0 : 3 * (i + 1) = 3 * i + 3 := by ring
  have h1 : 3 * (i + 1) + 1 = (3 * i + 1) + 3 := by ring
  have h2 : 3 * (i + 1) + 2 = (3 * i + 2) + 3 := by ring
  have h3 : 3 * (i + 1) + 3 = (3 * i + 3) + 3 := by ring
  simp only [windowCubic, h0, h1, h2, h3, getD_cons_three]

theorem splitnLoop_length (ts : List ℚ) :
    ∀ rem prev, (splitnLoop rem prev ts).1.length = 3 * ts.length + 3 ∧
      (splitnLoop rem prev ts).2.length = 3 * ts.length + 3 := by
  induction ts with
  | nil => intro rem prev; simp [splitnLoop]
  | cons t ts ih =>
    intro rem prev
    simp only [splitnLoop, List.length_cons]
    constructor
    · simp [(ih _ t).1]; ring
    · simp [(ih _ t).2]; ring

theorem splitnLoop_last (ts : List ℚ) :
    ∀ rem prev, (splitnLoop rem prev ts).1.getLast? = some rem.x3 ∧
      (splitnLoop rem prev ts).2.getLast? = some rem.y3 := by
  induction ts with
  | nil => intro rem prev; simp [splitnLoop]
  | cons t ts ih =>
    intro rem prev
    have h := ih (split rem ((t - prev) / (1 - prev))).2 t
    have hlen := splitnLoop_length ts (split rem ((t - prev) / (1 - prev))).2 t
    obtain ⟨r1, rest1, hr1⟩ :=
      List.exists_cons_of_ne_nil (l := (splitnLoop (split rem ((t - prev) / (1 - prev))).2 t ts).1)
        (by intro hnil; rw [hnil] at hlen; simp at hlen)
    obtain ⟨r2, rest2, hr2⟩ :=
      List.exists_cons_of_ne_nil (l := (splitnLoop (split rem ((t - prev) / (1 - prev))).2 t ts).2)
        (by intro hnil; rw [hnil] at hlen; simp at hlen)
    simp only [splitnLoop]
    constructor
    · rw [List.getLast?_cons_cons, List.getLast?_cons_cons, hr1,
        List.getLast?_cons_cons, ← hr1, h.1]
      rfl
    · rw [List.getLast?_cons_cons, List.getLast?_cons_cons, hr2,
        List.getLast?_cons_cons, ← hr2, h.2]
      rfl

theorem uAt_zero (prev : ℚ) (ts : List ℚ) : uAt prev ts 0 = prev := rfl

theorem uAt_cons_succ (prev t : ℚ) (ts : List ℚ) (n : ℕ) :
    uAt prev (t :: ts) (n + 1) = uAt t ts n := rfl

/-- The windows of the buffer produced by the `splitn` loop each trace a
parameter interval of the ambient curve `c`. -/
theorem splitnLoop_window (c : Cubic) (ts : List ℚ) :
    ∀ rem prev, validFrom prev ts →
      (∀ s : ℚ, evaluate rem s = evaluate c (prev + s * (1 - prev))) →
      ∀ i, i ≤ ts.length → ∀ s : ℚ,
        evaluate (windowCubic (rem.x0 :: (splitnLoop rem prev ts).1)
            (rem.y0 :: (splitnLoop rem prev ts).2) i) s =
          evaluate c (uAt prev ts i + s * (uAt prev ts (i + 1) - uAt prev ts i)) := by
  induction ts with
  | nil =>
    intro rem prev _ hinv i hi s
    obtain rfl : i = 0 := Nat.le_zero.mp hi
    have hw : windowCubic (rem.x0 :: (splitnLoop rem prev []).1)
        (rem.y0 :: (splitnLoop rem prev []).2) 0 = rem := rfl
    rw [hw, uAt_zero]
    have h1 : uAt prev [] 1 = 1 := rfl
    rw [h1, hinv s]
  | cons t ts ih =>
    intro rem prev hv hinv i hi s
    obtain ⟨hpt, ht1, hvt⟩ := hv
    have hprev1 : prev < 1 := lt_trans hpt ht1
    have hne : (1 : ℚ) - prev ≠ 0 := ne_of_gt (by linarith)
    have hτ : (t - prev) / (1 - prev) * (1 - prev) = t - prev :=
      div_mul_cancel₀ _ hne
    cases i with
    | zero =>
      have hw : windowCubic (rem.x0 :: (splitnLoop rem prev (t :: ts)).1)
          (rem.y0 :: (splitnLoop rem prev (t :: ts)).2) 0 =
          (split rem ((t - prev) / (1 - prev))).1 := rfl
      rw [hw, split_left_at, hinv, uAt_zero]
      have h1 : uAt prev (t :: ts) 1 = t := rfl
      rw [h1]
      congr 1
      linear_combination s * hτ
    | succ n =>
      have hstep : windowCubic (rem.x0 :: (splitnLoop rem prev (t :: ts)).1)
          (rem.y0 :: (splitnLoop rem prev (t :: ts)).2) (n + 1) =
          windowCubic
            ((split rem ((t - prev) / (1 - prev))).2.x0 ::
              (splitnLoop (split rem ((t - prev) / (1 - prev))).2 t ts).1)
            ((split rem ((t - prev) / (1 - prev))).2.y0 ::
              (splitnLoop (split rem ((t - prev) / (1 - prev))).2 t ts).2) n := by
        exact windowCubic_succ _ _ _ _ _ _ _ _ _ _ n
      rw [hstep, uAt_cons_succ, uAt_cons_succ]
      apply ih (split rem ((t - prev) / (1 - prev))).2 t hvt _ n
        (Nat.le_of_succ_le_succ hi)
      intro u
      rw [split_right_at, hinv]
      congr 1
      linear_combination (1 - u) * hτ

/-- C9 counterexample: with zero split parameters `splitn` appends
nothing at all, not `3*0 + 4 = 4` values. -/
theorem c9_counterexample :
    ¬ ((splitn sampleCubic []).1.length = 3 * ([] : List ℚ).length + 4) := by
  simp [splitn]

/-- C9 (amended): for every cubic curve and every non-empty sorted list
of k split parameters in (0,1), `splitn` appends exactly `3k+4` values to
each buffer; the first appended value is the curve's first control point,
the last its fourth; and for each `i` the 4-point window at appended
index `3i` holds the sub-curve over the parameter interval between
consecutive split points (0 before the first, 1 after the last).  (The
original claim also covered `k = 0`, where the source appends nothing.) -/
theorem c9_splitn_amended (c : Cubic) (ts : List ℚ)
    (hv : validFrom 0 ts) (hne : ts ≠ []) :
    (splitn c ts).1.length = 3 * ts.length + 4 ∧
      (splitn c ts).2.length = 3 * ts.length + 4 ∧
      (splitn c ts).1.headD 0 = c.x0 ∧ (splitn c ts).2.headD 0 = c.y0 ∧
      (splitn c ts).1.getLast? = some c.x3 ∧
      (splitn c ts).2.getLast? = some c.y3 ∧
      ∀ i, i ≤ ts.length → ∀ s : ℚ,
        evaluate (windowCubic (splitn c ts).1 (splitn c ts).2 i) s =
          evaluate c (uAt 0 ts i + s * (uAt 0 ts (i + 1) - uAt 0 ts i)) := by
  have hemp : ts.isEmpty = false := by
    cases ts with
    | nil => exact absurd rfl hne
    | cons a l => rfl
  have hsp : splitn c ts =
      (c.x0 :: (splitnLoop c 0 ts).1, c.y0 :: (splitnLoop c 0 ts).2) := by
    rw [splitn, hemp]
    rfl
  have hlen := splitnLoop_length ts c 0
  have hlast := splitnLoop_last ts c 0
  have hinv : ∀ s : ℚ, evaluate c s = evaluate c (0 + s * (1 - 0)) := by
    intro s
    norm_num
  refine ⟨?_, ?_, ?_, ?_, ?_, ?_, ?_⟩
  · rw [hsp]; simp [hlen.1]
  · rw [hsp]; simp [hlen.2]
  · rw [hsp]; rfl
  · rw [hsp]; rfl
  · rw [hsp]
    obtain ⟨r1, rest1, hr1⟩ :=
      List.exists_cons_of_ne_nil (l := (splitnLoop c 0 ts).1)
        (by intro hnil; rw [hnil] at hlen; simp at hlen)
    show ((c.x0 :: (splitnLoop c 0 ts).1).getLast? = some c.x3)
    rw [hr1, List.getLast?_cons_cons, ← hr1, hlast.1]
  · rw [hsp]
    obtain ⟨r2, rest2, hr2⟩ :=
      List.exists_cons_of_ne_nil (l := (splitnLoop c 0 ts).2)
        (by intro hnil; rw [hnil] at hlen; simp at hlen)
    show ((c.y0 :: (splitnLoop c 0 ts).2).getLast? = some c.y3)
    rw [hr2, List.getLast?_cons_cons, ← hr2, hlast.2]
  · intro i hi s
    rw [hsp]
    exact splitnLoop_window c ts c 0 hv hinv i hi s

/-- Witness for C9 on a concrete curve and split list `[1/4, 1/2]`. -/
theorem c9_splitn_amended_witness :
    validFrom 0 [(1 : ℚ) / 4, 1 / 2] ∧ ([(1 : ℚ) / 4, 1 / 2] ≠ []) ∧
      (splitn sampleCubic [(1 : ℚ) / 4, 1 / 2]).1.length = 10 :=
  ⟨by norm_num [validFrom], by simp,
    (c9_splitn_amended sampleCubic [(1 : ℚ) / 4, 1 / 2]
        (by norm_num [validFrom]) (by simp)).1⟩

theorem Rect.union_comm (r s : Rect) : r.union s = s.union r := by
  simp [Rect.union, min_comm, max_comm]

theorem Rect.union_assoc (r s u : Rect) :
    (r.union s).union u = r.union (s.union u) := by
  simp [Rect.union, min_assoc, max_assoc]

theorem foldl_unionStep_some (rs : List Rect) :
    ∀ b : Rect, rs.foldl unionStep (some b) = some (rs.foldl Rect.union b) := by
  induction rs with
  | nil => intro b; rfl
  | cons r rs ih =>
    intro b
    simp only [List.foldl_cons]
    exact ih (b.union r)

theorem unionRects_eq_foldl (l : List Rect) :
    unionRects l = (l.foldl unionStep none).getD Rect.rdefault := by
  cases l with
  | nil => rfl
  | cons r rs =>
    simp only [unionRects, List.foldl_cons]
    rw [show unionStep none r = some r from rfl, foldl_unionStep_some]
    rfl

theorem unionRects_perm {l l2 : List Rect} (h : l.Perm l2) :
    unionRects l = unionRects l2 := by
  rw [unionRects_eq_foldl, unionRects_eq_foldl]
  congr 1
  refine h.foldl_eq' ?_ none
  intro x _ y _ z
  cases z with
  | none => simp [unionStep, Rect.union_comm x y]
  | some b =>
    simp only [unionStep, Option.elim_some]
    rw [Rect.union_assoc, Rect.union_assoc, Rect.union_comm x y]

theorem foldl_union_pull (us : List Rect) :
    ∀ x y : Rect, us.foldl Rect.union (x.union y) =
      x.union (us.foldl Rect.union y) := by
  induction us with
  | nil => intro x y; rfl
  | cons u us ih =>
    intro x y
    simp only [List.foldl_cons]
    rw [Rect.union_assoc, ih]

theorem unionRects_append {l1 l2 : List Rect} (h1 : l1 ≠ []) (h2 : l2 ≠ []) :
    unionRects (l1 ++ l2) = (unionRects l1).union (unionRects l2) := by
  obtain ⟨r, rs, rfl⟩ := List.exists_cons_of_ne_nil h1
  obtain ⟨u, us, rfl⟩ := List.exists_cons_of_ne_nil h2
  simp only [unionRects, List.cons_append, List.foldl_cons, List.foldl_append]
  exact foldl_union_pull us _ u

theorem compute_bounds_eq (cs : List Curve) (path : Path) :
    compute_bounds cs path =
      unionRects (cs.map fun c => coarse_bounds (get_slice c path)) := by
  cases cs with
  | nil => rfl
  | cons c cs =>
    simp only [compute_bounds, unionRects, List.map_cons, List.foldl_map]

theorem set_getD_self : ∀ (l : List Curve) (i : ℕ), i < l.length →
    l.set i (l.getD i default) = l := by
  intro l
  induction l with
  | nil => intro i h; simp at h
  | cons y rest ih =>
    intro i h
    cases i with
    | zero => rfl
    | succ i =>
      simp only [List.getD_cons_succ, List.set_cons_succ]
      rw [ih i (by simpa using h)]

theorem swap0_perm : ∀ (j : ℕ) (l : List Curve) (x : Curve), j < l.length →
    (l.getD j default :: l.set j x).Perm (x :: l) := by
  intro j
  induction j with
  | zero =>
    intro l x h
    cases l with
    | nil => simp at h
    | cons y rest => exact List.Perm.swap x y rest
  | succ j ih =>
    intro l x h
    cases l with
    | nil => simp at h
    | cons y rest =>
      simp only [List.getD_cons_succ, List.set_cons_succ]
      exact (List.Perm.swap _ _ _).trans
        (((ih rest x (by simpa using h)).cons y).trans (List.Perm.swap _ _ _))

theorem swapL_cons_succ (y : Curve) (rest : List Curve) (i j : ℕ) :
    swapL (y :: rest) (i + 1) (j + 1) = y :: swapL rest i j := by
  simp [swapL]

theorem swapL_perm : ∀ (i : ℕ) (l : List Curve) (j : ℕ), i ≤ j →
    j < l.length → (swapL l i j).Perm l := by
  intro i
  induction i with
  | zero =>
    intro l j hij hj
    cases j with
    | zero =>
      cases l with
      | nil => simp at hj
      | cons y rest => simp [swapL]
    | succ j =>
      cases l with
      | nil => simp at hj
      | cons y rest =>
        have : swapL (y :: rest) 0 (j + 1) =
            rest.getD j default :: rest.set j y := by
          simp [swapL]
        rw [this]
        exact swap0_perm j rest y (by simpa using hj)
  | succ i ih =>
    intro l j hij hj
    cases j with
    | zero => omega
    | succ j =>
      cases l with
      | nil => simp at hj
      | cons y rest =>
        rw [swapL_cons_succ]
        exact (ih rest j (by omega) (by simpa using hj)).cons y

theorem sah_fold_none (curves : List Curve) (leaf : Leaf) (axis : SplitAxis)
    (position : ℚ) (path : Path) (l : List ℕ) :
    ∀ nl nr : ℕ,
      ((l.foldl (sahStep curves leaf axis position path)
          ((none : Option Rect), nl, (none : Option Rect), nr)).1 = none ∧
        (l.foldl (sahStep curves leaf axis position path)
          ((none : Option Rect), nl, (none : Option Rect), nr)).2.2.1 = none) := by
  induction l with
  | nil => intro nl nr; exact ⟨rfl, rfl⟩
  | cons a l ih =>
    intro nl nr
    simp only [List.foldl_cons]
    by_cases h : axisPos axis (curves.getD (leaf.first_curve + a) default) <
        position
    · have hstep : sahStep curves leaf axis position path
          ((none : Option Rect), nl, (none : Option Rect), nr) a =
          ((none : Option Rect), nl + 1, (none : Option Rect), nr) := by
        simp only [sahStep]
        rw [if_pos h]
        rfl
      rw [hstep]
      exact ih (nl + 1) nr
    · have hstep : sahStep curves leaf axis position path
          ((none : Option Rect), nl, (none : Option Rect), nr) a =
          ((none : Option Rect), nl, (none : Option Rect), nr + 1) := by
        simp only [sahStep]
        rw [if_neg h]
        rfl
      rw [hstep]
      exact ih nl (nr + 1)

/-- The accumulation bug: because `left`/`right` start as `None` and are
only updated through `Option::map`, they stay `None` forever, and the
SAH cost computed by `evaluate_sah` is 0 for every input. -/
theorem evaluate_sah_eq_zero (curves : List Curve) (leaf : Leaf)
    (axis : SplitAxis) (position : ℚ) (path : Path) :
    evaluate_sah curves leaf axis position path = 0 := by
  have h := sah_fold_none curves leaf axis position path
    (List.range leaf.num_curves) 0 0
  simp only [evaluate_sah, h.1, h.2, Option.elim_none, add_zero]

theorem partGo_spec (axis : SplitAxis) (pos : ℚ) :
    ∀ (n : ℕ) (cs : List Curve) (i j : ℤ), (j + 1 - i).toNat ≤ n →
      0 ≤ i → i ≤ j + 1 → j < (cs.length : ℤ) →
      (partGo axis pos cs i j).1.Perm cs ∧
        i ≤ (partGo axis pos cs i j).2 ∧ (partGo axis pos cs i j).2 ≤ j + 1 := by
  intro n
  induction n with
  | zero =>
    intro cs i j hm h0 hij hj
    have hnot : ¬ i ≤ j := by omega
    rw [partGo]
    simp only [dif_neg hnot]
    exact ⟨List.Perm.refl _, le_refl _, hij⟩
  | succ n ih =>
    intro cs i j hm h0 hij hj
    rw [partGo]
    by_cases hle : i ≤ j
    · rw [dif_pos hle]
      by_cases hlt : axisPos axis (cs.getD i.toNat default) < pos
      · rw [if_pos hlt]
        have h := ih cs (i + 1) j (by omega) (by omega) (by omega) hj
        exact ⟨h.1, by omega, h.2.2⟩
      · rw [if_neg hlt]
        have hlen : (swapL cs i.toNat j.toNat).length = cs.length := by
          simp [swapL]
        have hperm : (swapL cs i.toNat j.toNat).Perm cs :=
          swapL_perm i.toNat cs j.toNat (by omega) (by omega)
        have hj2 : j - 1 < ((swapL cs i.toNat j.toNat).length : ℤ) := by
          rw [hlen]; omega
        have h := ih (swapL cs i.toNat j.toNat) i (j - 1) (by omega) h0
          (by omega) hj2
        exact ⟨h.1.trans hperm, h.2.1, by omega⟩
    · rw [dif_neg hle]
      exact ⟨List.Perm.refl _, le_refl _, by omega⟩

theorem fsaStep_stuck (curves : List Curve) (leaf : Leaf) (path : Path)
    (axis : SplitAxis) (best : SplitAxis × ℚ × ℚ) (i : ℕ)
    (h : best.2.2 = 0) : fsaStep curves leaf path axis best i = best := by
  simp only [fsaStep, evaluate_sah_eq_zero, h]
  norm_num

theorem fsa_fold_stuck (curves : List Curve) (leaf : Leaf) (path : Path)
    (axis : SplitAxis) (l : List ℕ) :
    ∀ best : SplitAxis × ℚ × ℚ, best.2.2 = 0 →
      l.foldl (fsaStep curves leaf path axis) best = best := by
  induction l with
  | nil => intro best _; rfl
  | cons a l ih =>
    intro best h
    rw [List.foldl_cons, fsaStep_stuck curves leaf path axis best a h]
    exact ih best h

/-- Because every SAH cost is 0, `find_split_axis` always settles on the
first probe: axis X at the leaf's first curve's centroid x, cost 0. -/
theorem find_split_axis_eq (curves : List Curve) (leaf : Leaf) (path : Path)
    (h : 0 < leaf.num_curves) :
    find_split_axis curves leaf path =
      (SplitAxis.X, (curves.getD leaf.first_curve default).centroid.x, 0) := by
  obtain ⟨m, hm⟩ : ∃ m, leaf.num_curves = m + 1 :=
    ⟨leaf.num_curves - 1, by omega⟩
  have h1 : fsaStep curves leaf path SplitAxis.X (SplitAxis.X, 0, FMAX) 0 =
      (SplitAxis.X, (curves.getD leaf.first_curve default).centroid.x, 0) := by
    simp only [fsaStep, evaluate_sah_eq_zero, Nat.add_zero, axisPos]
    rw [if_pos (by norm_num [FMAX])]
  have hX : List.foldl (fsaStep curves leaf path SplitAxis.X)
      (SplitAxis.X, 0, FMAX) (List.range leaf.num_curves) =
      (SplitAxis.X, (curves.getD leaf.first_curve default).centroid.x, 0) := by
    rw [hm, List.range_succ_eq_map, List.foldl_cons, h1]
    exact fsa_fold_stuck curves leaf path SplitAxis.X _ _ rfl
  simp only [find_split_axis]
  rw [hX]
  exact fsa_fold_stuck curves leaf path SplitAxis.Y _ _ rfl

theorem buildCurvesGo_length (path : Path) :
    ∀ (segs : List Segment) (sid off : ℕ),
      (buildCurvesGo path segs sid off).length =
        (segs.map fun s => (s.length - 1) / 3).sum := by
  intro segs
  induction segs with
  | nil => intro sid off; rfl
  | cons seg rest ih =>
    intro sid off
    simp only [buildCurvesGo, List.length_append, List.length_map,
      List.length_range, List.map_cons, List.sum_cons, ih]

theorem pathCurves_length (path : Path) :
    (pathCurves path).length = numCurves path :=
  buildCurvesGo_length path path.segments 0 0

/-- Every tree the builder produces: either the root stays an (possibly
terminal) leaf over all curves followed by the `Empty` sentinel, or the
root becomes a branch with its two child leaves at indices 2 and 3. -/
theorem build_cases (path : Path) :
    (∃ cs2, build path =
        ([⟨compute_bounds (pathCurves path) path, 0,
            Data.leaf ⟨0, numCurves path⟩⟩,
          ⟨Rect.rdefault, 0, Data.empty⟩], cs2) ∧
        cs2.Perm (pathCurves path)) ∨
    (∃ cs2 k, build path =
        ([⟨compute_bounds (pathCurves path) path, 0, Data.branch 2⟩,
          ⟨Rect.rdefault, 0, Data.empty⟩,
          ⟨compute_bounds (cs2.take k) path, 0, Data.leaf ⟨0, k⟩⟩,
          ⟨compute_bounds (cs2.drop k) path, 0,
            Data.leaf ⟨k, numCurves path - k⟩⟩], cs2) ∧
        cs2.Perm (pathCurves path) ∧ k ≤ numCurves path ∧
        2 ≤ numCurves path) := by
  have hlen : (pathCurves path).length = numCurves path := pathCurves_length path
  rw [build]
  rw [show buildCurvesGo path path.segments 0 0 = pathCurves path from rfl]
  rw [subdivide]
  simp only [List.getD_cons_zero]
  by_cases hN : numCurves path ≤ 1
  · rw [if_pos hN]
    exact Or.inl ⟨pathCurves path, rfl, List.Perm.refl _⟩
  · rw [if_neg hN]
    have hforms := partGo_spec
      (find_split_axis (pathCurves path) ⟨0, numCurves path⟩ path).1
      (find_split_axis (pathCurves path) ⟨0, numCurves path⟩ path).2.1
      (numCurves path) (pathCurves path) ((0 : ℕ) : ℤ)
      (((0 : ℕ) : ℤ) + (numCurves path : ℤ) - 1)
      (by omega) (by omega) (by omega) (by rw [hlen]; omega)
    set pr := partGo
      (find_split_axis (pathCurves path) ⟨0, numCurves path⟩ path).1
      (find_split_axis (pathCurves path) ⟨0, numCurves path⟩ path).2.1
      (pathCurves path) ((0 : ℕ) : ℤ)
      (((0 : ℕ) : ℤ) + (numCurves path : ℤ) - 1) with hpr
    have hperm : pr.1.Perm (pathCurves path) := hforms.1
    have hlen2 : pr.1.length = numCurves path := by
      rw [hperm.length_eq, hlen]
    have hk : pr.2.toNat ≤ numCurves path := by
      have := hforms.2.2
      omega
    by_cases hc : (numCurves path : ℚ) *
        (⟨compute_bounds (pathCurves path) path, 0,
          Data.leaf ⟨0, numCurves path⟩⟩ : Node).bbox.area ≤
        (find_split_axis (pathCurves path) ⟨0, numCurves path⟩ path).2.2
    · rw [if_pos hc]
      exact Or.inl ⟨pr.1, rfl, hperm⟩
    · rw [if_neg hc]
      refine Or.inr ⟨pr.1, pr.2.toNat, ?_, hperm, hk, by omega⟩
      have hdrop : pr.1.drop 0 = pr.1 := List.drop_zero pr.1
      have htake : (pr.1.drop pr.2.toNat).take (0 + numCurves path -
          pr.2.toNat) = pr.1.drop pr.2.toNat := by
        apply List.take_of_length_le
        rw [List.length_drop, hlen2]
        omega
      rw [hdrop, htake]
      simp only [Nat.zero_add, Nat.sub_zero]
      rfl

/-- C2 (amended) : for every path with N curves, the built tree has at
most `2N+2` nodes (the builder appends one `Empty` sentinel and at most
one split's children); every leaf's bound is the union of its member
curves' coarse bounds; and every branch bound whose two children both
hold at least one curve equals the union of the children's bounds. -/
theorem c2_bvh_invariants_amended (path : Path) :
    (build path).1.length ≤ 2 * numCurves path + 2 ∧
      (∀ i l, ((build path).1.getD i default).data = Data.leaf l →
        0 < l.num_curves →
        ((build path).1.getD i default).bbox =
          unionRects ((((build path).2.drop l.first_curve).take
            l.num_curves).map fun c => coarse_bounds (get_slice c path))) ∧
      (∀ i lt lL lR, ((build path).1.getD i default).data = Data.branch lt →
        ((build path).1.getD lt default).data = Data.leaf lL →
        ((build path).1.getD (lt + 1) default).data = Data.leaf lR →
        0 < lL.num_curves → 0 < lR.num_curves →
        ((build path).1.getD i default).bbox =
          (((build path).1.getD lt default).bbox).union
            (((build path).1.getD (lt + 1) default).bbox)) := by
  rcases build_cases path with ⟨cs2, hb, hperm⟩ | ⟨cs2, k, hb, hperm, hk, hN2⟩
  · have hcs2len : cs2.length = numCurves path := by
      rw [hperm.length_eq, pathCurves_length]
    refine ⟨?_, ?_, ?_⟩
    · rw [hb]; simp only [List.length_cons, List.length_nil]; omega
    · intro i l hl hpos
      rw [hb] at hl ⊢
      match i with
      | 0 =>
        simp only [List.getD_cons_zero] at hl ⊢
        obtain rfl : (⟨0, numCurves path⟩ : Leaf) = l := by
          injection hl
        simp only [List.drop_zero]
        rw [List.take_of_length_le (by rw [hcs2len])]
        rw [compute_bounds_eq]
        exact unionRects_perm (hperm.map _).symm
      | 1 => simp at hl
      | (n + 2) =>
        rw [List.getD_eq_default] at hl
        · simp at hl
        · simp
    · intro i lt lL lR hbr _ _ _ _
      rw [hb] at hbr
      match i with
      | 0 => simp at hbr
      | 1 => simp at hbr
      | (n + 2) =>
        rw [List.getD_eq_default] at hbr
        · simp at hbr
        · simp
  · have hcs2len : cs2.length = numCurves path := by
      rw [hperm.length_eq, pathCurves_length]
    refine ⟨?_, ?_, ?_⟩
    · rw [hb]; simp only [List.length_cons, List.length_nil]; omega
    · intro i l hl hpos
      rw [hb] at hl ⊢
      match i with
      | 0 => simp at hl
      | 1 => simp at hl
      | 2 =>
        simp only [List.getD_cons_succ, List.getD_cons_zero] at hl ⊢
        obtain rfl : (⟨0, k⟩ : Leaf) = l := by injection hl
        simp only [List.drop_zero]
        rw [compute_bounds_eq]
      | 3 =>
        simp only [List.getD_cons_succ, List.getD_cons_zero] at hl ⊢
        obtain rfl : (⟨k, numCurves path - k⟩ : Leaf) = l := by injection hl
        rw [compute_bounds_eq]
        rw [List.take_of_length_le (by rw [List.length_drop, hcs2len])]
      | (n + 4) =>
        rw [List.getD_eq_default] at hl
        · simp at hl
        · simp
    · intro i lt lL lR hbr hL hR hposL hposR
      rw [hb] at hbr hL hR ⊢
      match i with
      | 0 =>
        simp only [List.getD_cons_zero] at hbr ⊢
        obtain rfl : 2 = lt := by injection hbr
        simp only [List.getD_cons_succ, List.getD_cons_zero] at hL hR ⊢
        obtain rfl : (⟨0, k⟩ : Leaf) = lL := by injection hL
        obtain rfl : (⟨k, numCurves path - k⟩ : Leaf) = lR := by injection hR
        have hkpos : 0 < k := hposL
        have hposR2 : 0 < numCurves path - k := hposR
        have hkN : k < numCurves path := by omega
        have hne1 : (cs2.take k).map
            (fun c => coarse_bounds (get_slice c path)) ≠ [] := by
          intro hnil
          rw [List.map_eq_nil] at hnil
          have := congrArg List.length hnil
          rw [List.length_take, hcs2len] at this
          simp at this
          omega
        have hne2 : (cs2.drop k).map
            (fun c => coarse_bounds (get_slice c path)) ≠ [] := by
          intro hnil
          rw [List.map_eq_nil] at hnil
          have := congrArg List.length hnil
          rw [List.length_drop, hcs2len] at this
          simp at this
          omega
        rw [compute_bounds_eq, compute_bounds_eq, compute_bounds_eq]
        rw [unionRects_perm (hperm.map
          (fun c => coarse_bounds (get_slice c path))).symm]
        rw [show cs2.map (fun c => coarse_bounds (get_slice c path)) =
            (cs2.take k).map (fun c => coarse_bounds (get_slice c path)) ++
              (cs2.drop k).map (fun c => coarse_bounds (get_slice c path))
          from by rw [← List.map_append, List.take_append_drop]]
        exact unionRects_append hne1 hne2
      | 1 => simp at hbr
      | 2 => simp at hbr
      | 3 => simp at hbr
      | (n + 4) =>
        rw [List.getD_eq_default] at hbr
        · simp at hbr
        · simp

theorem samplePath2_curves :
    pathCurves samplePath2 = [⟨⟨5/2, 5/2⟩, 0, 0⟩, ⟨⟨1/2, 1/2⟩, 1, 4⟩] := by
  norm_num [pathCurves, buildCurvesGo, samplePath2, cubicAt, coarse_bounds,
    Rect.centroid, List.range_succ, min_def, max_def, List.getD]

theorem samplePath2_numCurves : numCurves samplePath2 = 2 := by
  norm_num [numCurves, samplePath2]

theorem samplePath2_partition : partGo SplitAxis.X (5/2)
    [(⟨⟨5/2, 5/2⟩, 0, 0⟩ : Curve), ⟨⟨1/2, 1/2⟩, 1, 4⟩] 0 1 =
    ([⟨⟨1/2, 1/2⟩, 1, 4⟩, ⟨⟨5/2, 5/2⟩, 0, 0⟩], 1) := by
  rw [partGo]
  rw [dif_pos (by norm_num)]
  rw [if_neg (by norm_num [axisPos, List.getD])]
  rw [show swapL [(⟨⟨5/2, 5/2⟩, 0, 0⟩ : Curve), ⟨⟨1/2, 1/2⟩, 1, 4⟩]
      (Int.toNat 0) (Int.toNat 1) =
      [⟨⟨1/2, 1/2⟩, 1, 4⟩, ⟨⟨5/2, 5/2⟩, 0, 0⟩] from by
    norm_num [swapL, List.getD, List.set]]
  rw [partGo]
  rw [dif_pos (by norm_num)]
  rw [if_pos (by norm_num [axisPos, List.getD])]
  rw [partGo]
  rw [dif_neg (by norm_num)]
  norm_num

theorem samplePath2_build : build samplePath2 =
    ([⟨⟨0, 3, 0, 3⟩, 0, Data.branch 2⟩,
      ⟨Rect.rdefault, 0, Data.empty⟩,
      ⟨⟨0, 1, 0, 1⟩, 0, Data.leaf ⟨0, 1⟩⟩,
      ⟨⟨2, 3, 2, 3⟩, 0, Data.leaf ⟨1, 1⟩⟩],
     [⟨⟨1/2, 1/2⟩, 1, 4⟩, ⟨⟨5/2, 5/2⟩, 0, 0⟩]) := by
  rw [build]
  rw [show buildCurvesGo samplePath2 samplePath2.segments 0 0 =
    [⟨⟨5/2, 5/2⟩, 0, 0⟩, ⟨⟨1/2, 1/2⟩, 1, 4⟩] from samplePath2_curves]
  rw [subdivide]
  simp only [List.getD_cons_zero]
  rw [if_neg (by rw [samplePath2_numCurves]; norm_num)]
  rw [find_split_axis_eq _ _ _ (by rw [samplePath2_numCurves]; norm_num)]
  simp only [samplePath2_numCurves, List.getD_cons_zero]
  norm_num
  rw [samplePath2_partition]
  rw [show compute_bounds [(⟨⟨5/2, 5/2⟩, 0, 0⟩ : Curve), ⟨⟨1/2, 1/2⟩, 1, 4⟩]
      samplePath2 = ⟨0, 3, 0, 3⟩ from by
    norm_num [compute_bounds, get_slice, cubicAt, coarse_bounds, samplePath2,
      Rect.union, List.getD, min_def, max_def]]
  rw [if_neg (by norm_num [Rect.area])]
  norm_num [compute_bounds, get_slice, cubicAt, coarse_bounds, samplePath2,
    Rect.union, List.getD, min_def, max_def]

theorem samplePathDeg_curves :
    pathCurves samplePathDeg = [⟨⟨4, 4⟩, 0, 0⟩, ⟨⟨4, 4⟩, 1, 4⟩] := by
  norm_num [pathCurves, buildCurvesGo, samplePathDeg, cubicAt, coarse_bounds,
    Rect.centroid, List.range_succ, min_def, max_def, List.getD]

theorem samplePathDeg_numCurves : numCurves samplePathDeg = 2 := by
  norm_num [numCurves, samplePathDeg]

theorem samplePathDeg_partition : partGo SplitAxis.X 4
    [(⟨⟨4, 4⟩, 0, 0⟩ : Curve), ⟨⟨4, 4⟩, 1, 4⟩] 0 1 =
    ([⟨⟨4, 4⟩, 1, 4⟩, ⟨⟨4, 4⟩, 0, 0⟩], 0) := by
  rw [partGo]
  rw [dif_pos (by norm_num)]
  rw [if_neg (by norm_num [axisPos, List.getD])]
  rw [show swapL [(⟨⟨4, 4⟩, 0, 0⟩ : Curve), ⟨⟨4, 4⟩, 1, 4⟩]
      (Int.toNat 0) (Int.toNat 1) = [⟨⟨4, 4⟩, 1, 4⟩, ⟨⟨4, 4⟩, 0, 0⟩] from by
    norm_num [swapL, List.getD, List.set]]
  rw [partGo]
  rw [dif_pos (by norm_num)]
  rw [if_neg (by norm_num [axisPos, List.getD])]
  rw [show swapL [(⟨⟨4, 4⟩, 1, 4⟩ : Curve), ⟨⟨4, 4⟩, 0, 0⟩]
      (Int.toNat 0) ((1 - 1 : ℤ).toNat) = [⟨⟨4, 4⟩, 1, 4⟩, ⟨⟨4, 4⟩, 0, 0⟩]
      from by norm_num [swapL, List.getD, List.set]]
  rw [partGo]
  rw [dif_neg (by norm_num)]

theorem samplePathDeg_build : build samplePathDeg =
    ([⟨⟨2, 6, 2, 6⟩, 0, Data.branch 2⟩,
      ⟨Rect.rdefault, 0, Data.empty⟩,
      ⟨Rect.rdefault, 0, Data.leaf ⟨0, 0⟩⟩,
      ⟨⟨2, 6, 2, 6⟩, 0, Data.leaf ⟨0, 2⟩⟩],
     [⟨⟨4, 4⟩, 1, 4⟩, ⟨⟨4, 4⟩, 0, 0⟩]) := by
  rw [build]
  rw [show buildCurvesGo samplePathDeg samplePathDeg.segments 0 0 =
    [⟨⟨4, 4⟩, 0, 0⟩, ⟨⟨4, 4⟩, 1, 4⟩] from samplePathDeg_curves]
  rw [subdivide]
  simp only [List.getD_cons_zero]
  rw [if_neg (by rw [samplePathDeg_numCurves]; norm_num)]
  rw [find_split_axis_eq _ _ _ (by rw [samplePathDeg_numCurves]; norm_num)]
  simp only [samplePathDeg_numCurves, List.getD_cons_zero]
  norm_num
  rw [samplePathDeg_partition]
  rw [show compute_bounds [(⟨⟨4, 4⟩, 0, 0⟩ : Curve), ⟨⟨4, 4⟩, 1, 4⟩]
      samplePathDeg = ⟨2, 6, 2, 6⟩ from by
    norm_num [compute_bounds, get_slice, cubicAt, coarse_bounds,
      samplePathDeg, Rect.union, List.getD, min_def, max_def]]
  rw [if_neg (by norm_num [Rect.area])]
  norm_num [compute_bounds, get_slice, cubicAt, coarse_bounds, samplePathDeg,
    Rect.union, List.getD, min_def, max_def, Rect.rdefault]

/-- C1: the SAH cost the builder computes is NOT
`count_left * area(bounds_left) + count_right * area(bounds_right)`:
`evaluate_sah` returns 0 for every candidate because its left/right
bound accumulators start as `None` and `Option::map` never initializes
them, while on the concrete two-curve path the claimed cost is 2.  The
function's name, its source comment referencing the SAH article, and
the spec all make the cost formula the evident intent. -/
theorem c1_sah_code_bug :
    (∀ (curves : List Curve) (leaf : Leaf) (axis : SplitAxis)
        (position : ℚ) (path : Path),
      evaluate_sah curves leaf axis position path = 0) ∧
      sahCostSpec sampleCurves2 ⟨0, 2⟩ SplitAxis.X (5 / 2) samplePath2 = 2 ∧
      evaluate_sah sampleCurves2 ⟨0, 2⟩ SplitAxis.X (5 / 2) samplePath2 ≠
        sahCostSpec sampleCurves2 ⟨0, 2⟩ SplitAxis.X (5 / 2) samplePath2 := by
  have hspec : sahCostSpec sampleCurves2 ⟨0, 2⟩ SplitAxis.X (5 / 2)
      samplePath2 = 2 := by
    norm_num [sahCostSpec, sampleCurves2, buildCurvesGo, samplePath2, cubicAt,
      get_slice, coarse_bounds, unionRects, Rect.area, Rect.union,
      Rect.centroid, axisPos, List.filter, List.range_succ, List.getD,
      numCurves, min_def, max_def]
  refine ⟨evaluate_sah_eq_zero, hspec, ?_⟩
  rw [evaluate_sah_eq_zero, hspec]
  norm_num

/-- C2 counterexample: at `samplePathDeg` the built tree has 4 nodes,
more than `2N-1 = 3`, and the root branch's bound differs from the union
of its children's bounds (the empty left child carries the all-zero
default rectangle, pulling the union to the origin). -/
theorem c2_counterexample :
    ¬ ((build samplePathDeg).1.length ≤ 2 * numCurves samplePathDeg - 1) ∧
      ¬ (∀ i lt, ((build samplePathDeg).1.getD i default).data =
            Data.branch lt →
          ((build samplePathDeg).1.getD i default).bbox =
            (((build samplePathDeg).1.getD lt default).bbox).union
              (((build samplePathDeg).1.getD (lt + 1) default).bbox)) := by
  constructor
  · rw [samplePathDeg_build, samplePathDeg_numCurves]
    norm_num
  · intro hall
    have h := hall 0 2 (by rw [samplePathDeg_build]; rfl)
    rw [samplePathDeg_build] at h
    simp only [List.getD_cons_zero, List.getD_cons_succ] at h
    norm_num [Rect.union, Rect.rdefault, min_def, max_def] at h

/-- Witness for C2 (amended) at `samplePath2`, leaf node 2. -/
theorem c2_bvh_invariants_amended_witness :
    ((build samplePath2).1.getD 2 default).data = Data.leaf ⟨0, 1⟩ ∧
      0 < (⟨0, 1⟩ : Leaf).num_curves ∧
      ((build samplePath2).1.getD 2 default).bbox =
        unionRects ((((build samplePath2).2.drop
            (⟨0, 1⟩ : Leaf).first_curve).take (⟨0, 1⟩ : Leaf).num_curves).map
          fun c => coarse_bounds (get_slice c samplePath2)) :=
  ⟨by rw [samplePath2_build]; rfl, by norm_num,
    (c2_bvh_invariants_amended samplePath2).2.1 2 ⟨0, 1⟩
      (by rw [samplePath2_build]; rfl) (by norm_num)⟩

/-- C7 (amended): on every built BVH, the traversal is total and never
reaches the `Data::Empty => unreachable!()` branch; when the queried
node is not a branch, the buffer is filled with exactly the
`(index, leaf)` pairs of every leaf except the node itself, regardless
of bounding-box overlap; but when the queried node is a branch (the
root, on a split tree) the traversal skips the node's entire subtree —
the whole tree — and returns the empty buffer, not the other leaves. -/
theorem c7_find_intersecting_amended (path : Path) (i : ℕ) :
    (∃ out, find_intersecting_with (build path).1 i = some out) ∧
      ((((build path).1.getD i default).data).isBranch = false →
        find_intersecting_with (build path).1 i =
          some ((leafPairs (build path).1).filter fun p => p.1 ≠ i)) ∧
      ((((build path).1.getD i default).data).isBranch = true →
        find_intersecting_with (build path).1 i = some []) := by
  rcases build_cases path with ⟨cs2, hb, -⟩ | ⟨cs2, k, hb, -, -, -⟩
  · rw [hb]
    by_cases hi0 : i = 0
    · subst hi0
      refine ⟨⟨[], by simp [find_intersecting_with, intersect]⟩, ?_, ?_⟩
      · intro _
        simp [find_intersecting_with, intersect, leafPairs, List.enum,
          List.enumFrom, List.filterMap]
      · intro habs
        simp [Data.isBranch] at habs
    · refine ⟨⟨[(0, ⟨0, numCurves path⟩)],
        by simp [find_intersecting_with, intersect, hi0, List.getD]⟩, ?_, ?_⟩
      · intro _
        simp [find_intersecting_with, intersect, hi0, List.getD, leafPairs,
          List.enum, List.enumFrom, List.filterMap, Ne.symm hi0]
      · intro habs
        by_cases hi1 : i = 1
        · subst hi1
          simp [Data.isBranch] at habs
        · rw [List.getD_eq_default _ _ (by simp; omega)] at habs
          simp [Data.isBranch] at habs
  · rw [hb]
    by_cases hi0 : i = 0
    · subst hi0
      refine ⟨⟨[], by simp [find_intersecting_with, intersect]⟩, ?_, ?_⟩
      · intro habs
        simp [Data.isBranch] at habs
      · intro _
        simp [find_intersecting_with, intersect]
    · by_cases hi2 : i = 2
      · subst hi2
        refine ⟨⟨[(3, ⟨k, numCurves path - k⟩)],
          by simp [find_intersecting_with, intersect, List.getD]⟩, ?_, ?_⟩
        · intro _
          simp [find_intersecting_with, intersect, List.getD, leafPairs,
            List.enum, List.enumFrom, List.filterMap]
        · intro habs
          simp [Data.isBranch] at habs
      · by_cases hi3 : i = 3
        · subst hi3
          refine ⟨⟨[(2, ⟨0, k⟩)],
            by simp [find_intersecting_with, intersect, List.getD]⟩, ?_, ?_⟩
          · intro _
            simp [find_intersecting_with, intersect, List.getD, leafPairs,
              List.enum, List.enumFrom, List.filterMap]
          · intro habs
            simp [Data.isBranch] at habs
        · refine ⟨⟨[(2, ⟨0, k⟩), (3, ⟨k, numCurves path - k⟩)],
            by simp [find_intersecting_with, intersect, hi0, hi2, hi3,
              List.getD]⟩, ?_, ?_⟩
          · intro _
            simp [find_intersecting_with, intersect, hi0, hi2, hi3,
              List.getD, leafPairs, List.enum, List.enumFrom, List.filterMap,
              Ne.symm hi2, Ne.symm hi3]
          · intro habs
            by_cases hi1 : i = 1
            · subst hi1
              simp [Data.isBranch] at habs
            · rw [List.getD_eq_default _ _ (by simp; omega)] at habs
              simp [Data.isBranch] at habs

/-- C7 counterexample: querying from the root (node 0) of the built BVH
of `samplePath2` returns the empty buffer, not the pairs of the two
leaves 2 and 3 — the `origin != current` guard skips the origin's whole
subtree, which from the root is the entire tree. -/
theorem c7_counterexample :
    find_intersecting_with (build samplePath2).1 0 = some [] ∧
      (leafPairs (build samplePath2).1).filter (fun p => p.1 ≠ 0) =
        [(2, ⟨0, 1⟩), (3, ⟨1, 1⟩)] ∧
      find_intersecting_with (build samplePath2).1 0 ≠
        some ((leafPairs (build samplePath2).1).filter fun p => p.1 ≠ 0) := by
  rw [samplePath2_build]
  refine ⟨by simp [find_intersecting_with, intersect], ?_, ?_⟩
  · simp [leafPairs, List.enum, List.enumFrom, List.filterMap]
  · simp [find_intersecting_with, intersect, leafPairs, List.enum,
      List.enumFrom, List.filterMap]

/-- Witness for C7 (amended) at `samplePath2`, node 2 (a leaf). -/
theorem c7_find_intersecting_amended_witness :
    (((build samplePath2).1.getD 2 default).data).isBranch = false ∧
      find_intersecting_with (build samplePath2).1 2 =
        some ((leafPairs (build samplePath2).1).filter fun p => p.1 ≠ 2) :=
  ⟨by rw [samplePath2_build]; rfl,
    (c7_find_intersecting_amended samplePath2 2).2.1
      (by rw [samplePath2_build]; rfl)⟩

/-- C3: the claimed mark-then-skip-next-pass behavior cannot occur.  On
the built BVH of `samplePath2` with an oracle that reports an
intersection for every candidate pair, pass 0 records no intersection at
all — the candidate filter `last_touched != iteration` compares the
freshly built all-zero counters against pass index 0 and excludes every
candidate — so both leaves are scanned and nothing is marked; and even
if a leaf were marked with pass index k, the origin-skip test of pass
k+1 compares against k+1 (and the rebuild resets every counter to 0), so
it could never be skipped during pass k+1. -/
theorem c3_driver_code_bug :
    (scanPass (build samplePath2).1 (fun _ _ => true) 0).2.2 = [] ∧
      (scanPass (build samplePath2).1 (fun _ _ => true) 0).2.1 = [2, 3] ∧
      (∀ k : ℕ, skip_as_origin (k + 1) (mark_counter k) = false ∧
        skip_as_origin (k + 1) built_counter = false) := by
  refine ⟨?_, ?_, ?_⟩
  · rw [samplePath2_build]
    simp [scanPass, scanStep, markNode, find_intersecting_with, intersect,
      Data.isLeaf, List.getD, List.range_succ, List.filter, List.find?]
  · rw [samplePath2_build]
    simp [scanPass, scanStep, markNode, find_intersecting_with, intersect,
      Data.isLeaf, List.getD, List.range_succ, List.filter, List.find?]
  · intro k
    constructor
    · have hne : k ≠ k + 1 := by omega
      simp [skip_as_origin, mark_counter, hne]
    · simp [skip_as_origin, built_counter]

theorem fiirBranch_capacity_of
    (go : CurvePart → CurvePart → ℕ → List (ℚ × ℚ) →
      Except IntersectError (List (ℚ × ℚ)))
    (hGo : ∀ (a b : CurvePart) (it : ℕ) (acc : List (ℚ × ℚ)),
      acc.length ≤ 9 →
      (∀ out, go a b it acc = .ok out → out.length ≤ 9) ∧
        go a b it acc ≠ .error .pushOverflow) :
    ∀ (a2 b2 : CurvePart) (p : ℚ) (it : ℕ) (acc : List (ℚ × ℚ)),
      acc.length ≤ 9 → acc.length ≠ 9 →
      (∀ out, fiirBranch go a2 b2 p it acc = .ok out →
        out.length ≤ 9) ∧
        fiirBranch go a2 b2 p it acc ≠ .error .pushOverflow := by
  intro a2 b2 p it acc hacc hne
  have hlt : acc.length < 9 := lt_of_le_of_ne hacc hne
  have hpush : ∀ v : ℚ × ℚ,
      (∀ out, pushIntersection acc v = .ok out → out.length ≤ 9) ∧
        pushIntersection acc v ≠ .error .pushOverflow := by
    intro v
    rw [pushIntersection, if_pos hlt]
    constructor
    · intro out h
      simp only [Except.ok.injEq] at h
      subst h
      simp
      omega
    · simp
  rw [fiirBranch]
  by_cases h1 : p < 0
  · rw [if_pos h1]
    exact ⟨fun out h => by
      simp only [Except.ok.injEq] at h
      subst h
      exact hacc, by simp⟩
  · rw [if_neg h1]
    by_cases h2 : approx_eq (CurvePart.length a2 + CurvePart.length b2) 0
    · rw [if_pos h2]
      cases hlast : acc.getLast? with
      | none => exact hpush _
      | some prev =>
        show (∀ out, (if approx_eq prev.1 a2.start then Except.ok acc
            else pushIntersection acc (a2.start, b2.start)) = .ok out →
              out.length ≤ 9) ∧
          (if approx_eq prev.1 a2.start then Except.ok acc
            else pushIntersection acc (a2.start, b2.start)) ≠
            .error .pushOverflow
        by_cases h3 : approx_eq prev.1 a2.start
        · rw [if_pos h3]
          exact ⟨fun out h => by
            simp only [Except.ok.injEq] at h
            subst h
            exact hacc, by simp⟩
        · rw [if_neg h3]
          exact hpush _
    · rw [if_neg h2]
      by_cases h4 : 8 / 10 < p
      · rw [if_pos h4]
        by_cases h5 : b2.length < a2.length
        · rw [if_pos h5]
          cases hrec : go (a2.split (1 / 2)).1 b2 0 acc with
          | error e =>
            refine ⟨fun out h => by simp at h, ?_⟩
            intro habs
            simp only [Except.error.injEq] at habs
            subst habs
            exact (hGo _ _ _ _ hacc).2 hrec
          | ok acc2 =>
            have hacc2 : acc2.length ≤ 9 := (hGo _ _ _ _ hacc).1 acc2 hrec
            exact hGo (a2.split (1 / 2)).2 b2 0 acc2 hacc2
        · rw [if_neg h5]
          cases hrec : go a2 (b2.split (1 / 2)).1 0 acc with
          | error e =>
            refine ⟨fun out h => by simp at h, ?_⟩
            intro habs
            simp only [Except.error.injEq] at habs
            subst habs
            exact (hGo _ _ _ _ hacc).2 hrec
          | ok acc2 =>
            have hacc2 : acc2.length ≤ 9 := (hGo _ _ _ _ hacc).1 acc2 hrec
            exact hGo a2 (b2.split (1 / 2)).2 0 acc2 hacc2
      · rw [if_neg h4]
        exact hGo a2 b2 (it + 1) acc hacc

theorem fiirGo_capacity (clipFn : Cubic → Cubic → ℚ × ℚ) :
    ∀ (fuel : ℕ) (a b : CurvePart) (it : ℕ) (acc : List (ℚ × ℚ)),
      acc.length ≤ 9 →
      (∀ out, fiirGo clipFn fuel a b it acc = .ok out → out.length ≤ 9) ∧
        fiirGo clipFn fuel a b it acc ≠ .error .pushOverflow := by
  intro fuel
  induction fuel with
  | zero =>
    intro a b it acc hacc
    exact ⟨fun out h => by simp [fiirGo] at h, by simp [fiirGo]⟩
  | succ fuel ih =>
    intro a b it acc hacc
    rw [fiirGo]
    by_cases h15 : 15 ≤ it
    · rw [if_pos h15]
      exact ⟨fun out h => by simp at h, by simp⟩
    · rw [if_neg h15]
      by_cases hfull : acc.length = 9
      · rw [if_pos hfull]
        exact ⟨fun out h => by simp at h, by simp⟩
      · rw [if_neg hfull]
        by_cases hpar : it % 2 = 0
        · rw [if_pos hpar]
          exact fiirBranch_capacity_of (fiirGo clipFn fuel) ih _ _ _ _ _
            hacc hfull
        · rw [if_neg hpar]
          exact fiirBranch_capacity_of (fiirGo clipFn fuel) ih _ _ _ _ _
            hacc hfull

/-- C4: the intersection search never returns more than 9 pairs and
never silently drops one.  For every clip function, every fuel, and
every state whose container holds at most 9 entries: an `ok` result has
at most 9 entries; the guarded `ArrayVec::push` never hits its
capacity panic (so nothing is ever truncated); and whenever the
container already holds 9 entries and the loop would run another
iteration (iteration cap not yet hit), the loop's own
`assert!(!intersections.is_full())` fires as the fatal, caller-visible
`maxIntersections` failure before anything else happens. -/
theorem c4_intersection_capacity (clipFn : Cubic → Cubic → ℚ × ℚ)
    (fuel : ℕ) (ca cb : Cubic) (a b : CurvePart) (it : ℕ)
    (acc out : List (ℚ × ℚ)) (hacc : acc.length ≤ 9) :
    (findIntersections clipFn fuel ca cb = .ok out → out.length ≤ 9) ∧
      findIntersections clipFn fuel ca cb ≠ .error .pushOverflow ∧
      (acc.length = 9 → it < 15 →
        fiirGo clipFn (fuel + 1) a b it acc = .error .maxIntersections) := by
  refine ⟨?_, ?_, ?_⟩
  · intro h
    exact (fiirGo_capacity clipFn fuel ⟨ca, 0, 1⟩ ⟨cb, 0, 1⟩ 0 []
      (by simp)).1 out h
  · exact (fiirGo_capacity clipFn fuel ⟨ca, 0, 1⟩ ⟨cb, 0, 1⟩ 0 []
      (by simp)).2
  · intro h9 h15
    rw [fiirGo, if_neg (by omega), if_pos h9]

/-- Witness for C4: with a trivial clip function and a full container,
entering the loop raises the fatal capacity assertion. -/
theorem c4_intersection_capacity_witness :
    (List.replicate 9 ((0 : ℚ), (0 : ℚ))).length ≤ 9 ∧
      (List.replicate 9 ((0 : ℚ), (0 : ℚ))).length = 9 ∧ (0 : ℕ) < 15 ∧
      fiirGo (fun _ _ => ((0 : ℚ), 1)) 1 ⟨sampleCubic, 0, 1⟩
        ⟨sampleCubic, 0, 1⟩ 0 (List.replicate 9 ((0 : ℚ), (0 : ℚ))) =
        .error .maxIntersections :=
  ⟨by simp, by simp, by norm_num,
    (c4_intersection_capacity (fun _ _ => ((0 : ℚ), 1)) 0 sampleCubic
        sampleCubic ⟨sampleCubic, 0, 1⟩ ⟨sampleCubic, 0, 1⟩ 0
        (List.replicate 9 ((0 : ℚ), (0 : ℚ))) [] (by simp)).2.2
      (by simp) (by norm_num)⟩

/-- C5: in the Bézier-clipping loop, a clip step that is neither the
no-intersection case nor the collapsed-range case and whose remaining
proportion exceeds 0.8 bisects the longer of the two curves' current
parameter ranges at its midpoint and searches each half independently
against the other curve's unchanged range, recording no intersection at
that step (the untouched container is passed to the first half, and the
second half continues from the first half's result).  Both parities of
the alternation are covered; the first conjunct identifies `split(1/2)`
with the midpoint bisection. -/
theorem c5_bisection_heuristic (clipFn : Cubic → Cubic → ℚ × ℚ) (fuel : ℕ)
    (a b : CurvePart) (it : ℕ) (acc : List (ℚ × ℚ))
    (hit : ¬ 15 ≤ it) (hfull : acc.length ≠ 9) :
    (∀ c : CurvePart,
      (c.split (1 / 2)).1 = ⟨c.points, c.start, (c.start + c.stop) / 2⟩ ∧
        (c.split (1 / 2)).2 = ⟨c.points, (c.start + c.stop) / 2, c.stop⟩) ∧
      (it % 2 = 0 →
        ¬ (calcStep clipFn a b).2 < 0 →
        ¬ approx_eq ((calcStep clipFn a b).1.length + b.length) 0 →
        8 / 10 < (calcStep clipFn a b).2 →
        (b.length < (calcStep clipFn a b).1.length →
          (∀ e, fiirGo clipFn fuel
              ((calcStep clipFn a b).1.split (1 / 2)).1 b 0 acc =
                .error e →
            fiirGo clipFn (fuel + 1) a b it acc = .error e) ∧
          (∀ acc2, fiirGo clipFn fuel
              ((calcStep clipFn a b).1.split (1 / 2)).1 b 0 acc =
                .ok acc2 →
            fiirGo clipFn (fuel + 1) a b it acc =
              fiirGo clipFn fuel
                ((calcStep clipFn a b).1.split (1 / 2)).2 b 0 acc2)) ∧
        (¬ b.length < (calcStep clipFn a b).1.length →
          (∀ e, fiirGo clipFn fuel (calcStep clipFn a b).1
              (b.split (1 / 2)).1 0 acc = .error e →
            fiirGo clipFn (fuel + 1) a b it acc = .error e) ∧
          (∀ acc2, fiirGo clipFn fuel (calcStep clipFn a b).1
              (b.split (1 / 2)).1 0 acc = .ok acc2 →
            fiirGo clipFn (fuel + 1) a b it acc =
              fiirGo clipFn fuel (calcStep clipFn a b).1
                (b.split (1 / 2)).2 0 acc2))) ∧
      (¬ it % 2 = 0 →
        ¬ (calcStep clipFn b a).2 < 0 →
        ¬ approx_eq (a.length + (calcStep clipFn b a).1.length) 0 →
        8 / 10 < (calcStep clipFn b a).2 →
        ((calcStep clipFn b a).1.length < a.length →
          (∀ e, fiirGo clipFn fuel (a.split (1 / 2)).1
              (calcStep clipFn b a).1 0 acc = .error e →
            fiirGo clipFn (fuel + 1) a b it acc = .error e) ∧
          (∀ acc2, fiirGo clipFn fuel (a.split (1 / 2)).1
              (calcStep clipFn b a).1 0 acc = .ok acc2 →
            fiirGo clipFn (fuel + 1) a b it acc =
              fiirGo clipFn fuel (a.split (1 / 2)).2
                (calcStep clipFn b a).1 0 acc2)) ∧
        (¬ (calcStep clipFn b a).1.length < a.length →
          (∀ e, fiirGo clipFn fuel a
              ((calcStep clipFn b a).1.split (1 / 2)).1 0 acc = .error e →
            fiirGo clipFn (fuel + 1) a b it acc = .error e) ∧
          (∀ acc2, fiirGo clipFn fuel a
              ((calcStep clipFn b a).1.split (1 / 2)).1 0 acc = .ok acc2 →
            fiirGo clipFn (fuel + 1) a b it acc =
              fiirGo clipFn fuel a
                ((calcStep clipFn b a).1.split (1 / 2)).2 0 acc2))) := by
  refine ⟨?_, ?_, ?_⟩
  · intro c
    constructor
    · show (⟨c.points, c.start, c.start + 1 / 2 * (c.stop - c.start)⟩ :
          CurvePart) = ⟨c.points, c.start, (c.start + c.stop) / 2⟩
      congr 1
      ring
    · show (⟨c.points, c.start + 1 / 2 * (c.stop - c.start), c.stop⟩ :
          CurvePart) = ⟨c.points, (c.start + c.stop) / 2, c.stop⟩
      congr 1
      ring
  · intro heven hneg hcol hbig
    have hstep : fiirGo clipFn (fuel + 1) a b it acc =
        fiirBranch (fiirGo clipFn fuel) (calcStep clipFn a b).1 b
          (calcStep clipFn a b).2 it acc := by
      rw [fiirGo, if_neg hit, if_neg hfull, if_pos heven]
    rw [hstep, fiirBranch, if_neg hneg, if_neg hcol, if_pos hbig]
    constructor
    · intro hlonger
      rw [if_pos hlonger]
      constructor
      · intro e he
        rw [he]
      · intro acc2 hok
        rw [hok]
    · intro hshorter
      rw [if_neg hshorter]
      constructor
      · intro e he
        rw [he]
      · intro acc2 hok
        rw [hok]
  · intro hodd hneg hcol hbig
    have hstep : fiirGo clipFn (fuel + 1) a b it acc =
        fiirBranch (fiirGo clipFn fuel) a (calcStep clipFn b a).1
          (calcStep clipFn b a).2 it acc := by
      rw [fiirGo, if_neg hit, if_neg hfull, if_neg hodd]
    rw [hstep, fiirBranch, if_neg hneg, if_neg hcol, if_pos hbig]
    constructor
    · intro hlonger
      rw [if_pos hlonger]
      constructor
      · intro e he
        rw [he]
      · intro acc2 hok
        rw [hok]
    · intro hshorter
      rw [if_neg hshorter]
      constructor
      · intro e he
        rw [he]
      · intro acc2 hok
        rw [hok]

/-- Closed instance of the C5 theorem: its hypotheses hold at iteration 0
with an empty accumulator, and the midpoint-bisection fact evaluates on a
concrete curve part over `sampleCubic`. -/
theorem c5_bisection_heuristic_witness :
    ¬ (15 : ℕ) ≤ 0 ∧ (([] : List (ℚ × ℚ)).length ≠ 9) ∧
      ((⟨sampleCubic, 0, 1⟩ : CurvePart).split (1 / 2)).1 =
        ⟨sampleCubic, 0, (0 + 1) / 2⟩ :=
  ⟨by decide, by decide,
    ((c5_bisection_heuristic (fun _ _ => ((0 : ℚ), 1)) 0 ⟨sampleCubic, 0, 1⟩
        ⟨sampleCubic, 0, 1 / 2⟩ 0 [] (by decide) (by decide)).1
      ⟨sampleCubic, 0, 1⟩).1⟩

theorem runOf_length (buf : List ℚ) (c : Replace)
    (h1 : c.first_point ≤ c.one_past_last_point)
    (h2 : c.one_past_last_point ≤ buf.length) :
    (runOf buf c).length = c.one_past_last_point - c.first_point := by
  simp only [runOf, List.length_take, List.length_drop]
  omega

theorem applyFold_spec (cl : ChangeList) :
    ∀ (recs : List Replace) (segs : List Segment) (prex prey xs ys : List ℚ)
      (off base : ℕ),
      off + base = prex.length → off + base = prey.length →
      (∀ c ∈ recs, (runOf cl.y c).length = (runOf cl.x c).length) →
      ValidRecs xs base (recs.map fun c => (c.position, runOf cl.x c)) →
      ValidRecs ys base (recs.map fun c => (c.position, runOf cl.y c)) →
      recs.foldl cl.applyStep
          (⟨segs, prex ++ xs.drop base, prey ++ ys.drop base⟩, off) =
        (⟨bumpSegs cl.x segs recs,
          prex ++ specPatch xs base
            (recs.map fun c => (c.position, runOf cl.x c)),
          prey ++ specPatch ys base
            (recs.map fun c => (c.position, runOf cl.y c))⟩,
         off + ((recs.map fun c => (runOf cl.x c).length - 4).sum))
  | [], segs, prex, prey, xs, ys, off, base, hpx, hpy, hlen, hvx, hvy => by
      simp [specPatch, bumpSegs]
  | c :: rest, segs, prex, prey, xs, ys, off, base, hpx, hpy, hlen, hvx,
      hvy => by
      simp only [List.map_cons, ValidRecs] at hvx hvy
      obtain ⟨hbp, hlen4, hspan, hfirst, hlast, hrestx⟩ := hvx
      obtain ⟨hbp2, hylen4, hyspan, hyfirst, hylast, hresty⟩ := hvy
      have hylenx : (runOf cl.y c).length = (runOf cl.x c).length :=
        hlen c (List.mem_cons_self c rest)
      have hlen2 : ∀ c2 ∈ rest, (runOf cl.y c2).length = (runOf cl.x c2).length :=
        fun c2 hc2 => hlen c2 (List.mem_cons_of_mem _ hc2)
      have hstep : cl.applyStep
          (⟨⟨segs, prex ++ xs.drop base, prey ++ ys.drop base⟩, off⟩) c =
          (⟨⟨segs.set c.segment_id
              ⟨(segs.getD c.segment_id ⟨0⟩).length +
                ((runOf cl.x c).length - 4)⟩,
            (prex ++ xs.drop base).take (c.position + off) ++ runOf cl.x c ++
              (prex ++ xs.drop base).drop (c.position + off + 4),
            (prey ++ ys.drop base).take (c.position + off) ++ runOf cl.y c ++
              (prey ++ ys.drop base).drop (c.position + off + 4)⟩,
           off + ((runOf cl.x c).length - 4)⟩) := rfl
      have hXt : (prex ++ xs.drop base).take (c.position + off) =
          prex ++ (xs.drop base).take (c.position - base) := by
        rw [List.take_append_eq_append_take,
          List.take_of_length_le (by omega)]
        have h2 : c.position + off - prex.length = c.position - base := by
          omega
        rw [h2]
      have hXd : (prex ++ xs.drop base).drop (c.position + off + 4) =
          xs.drop (c.position + 4) := by
        rw [List.drop_append_eq_append_drop,
          List.drop_eq_nil_of_le (by omega), List.nil_append]
        have h2 : c.position + off + 4 - prex.length =
            c.position - base + 4 := by omega
        rw [h2, List.drop_drop]
        have h3 : base + (c.position - base + 4) = c.position + 4 := by
          omega
        rw [h3]
      have hYt : (prey ++ ys.drop base).take (c.position + off) =
          prey ++ (ys.drop base).take (c.position - base) := by
        rw [List.take_append_eq_append_take,
          List.take_of_length_le (by omega)]
        have h2 : c.position + off - prey.length = c.position - base := by
          omega
        rw [h2]
      have hYd : (prey ++ ys.drop base).drop (c.position + off + 4) =
          ys.drop (c.position + 4) := by
        rw [List.drop_append_eq_append_drop,
          List.drop_eq_nil_of_le (by omega), List.nil_append]
        have h2 : c.position + off + 4 - prey.length =
            c.position - base + 4 := by omega
        rw [h2, List.drop_drop]
        have h3 : base + (c.position - base + 4) = c.position + 4 := by
          omega
        rw [h3]
      have hxne : runOf cl.x c ≠ [] := by
        intro h
        rw [h] at hlen4
        simp at hlen4
      have hyne : runOf cl.y c ≠ [] := by
        intro h
        rw [h] at hylen4
        simp at hylen4
      have keyx : runOf cl.x c ++ xs.drop (c.position + 4) =
          (runOf cl.x c).dropLast ++ xs.drop (c.position + 3) := by
        conv_lhs => rw [← List.dropLast_append_getLast hxne]
        rw [List.append_assoc]
        congr 1
        rw [List.drop_eq_getElem_cons hspan, List.singleton_append]
        congr 1
        rw [List.getLast_eq_getElem]
        have e1 := List.getD_eq_getElem (runOf cl.x c) 0
          (show (runOf cl.x c).length - 1 < (runOf cl.x c).length by omega)
        have e2 := List.getD_eq_getElem xs 0 hspan
        rw [← e1, ← e2]
        exact hlast
      have keyy : runOf cl.y c ++ ys.drop (c.position + 4) =
          (runOf cl.y c).dropLast ++ ys.drop (c.position + 3) := by
        conv_lhs => rw [← List.dropLast_append_getLast hyne]
        rw [List.append_assoc]
        congr 1
        rw [List.drop_eq_getElem_cons hyspan, List.singleton_append]
        congr 1
        rw [List.getLast_eq_getElem]
        have e1 := List.getD_eq_getElem (runOf cl.y c) 0
          (show (runOf cl.y c).length - 1 < (runOf cl.y c).length by omega)
        have e2 := List.getD_eq_getElem ys 0 hyspan
        rw [← e1, ← e2]
        exact hylast
      have hX : (prex ++ xs.drop base).take (c.position + off) ++
            runOf cl.x c ++
            (prex ++ xs.drop base).drop (c.position + off + 4) =
          (prex ++ (xs.drop base).take (c.position - base) ++
              (runOf cl.x c).dropLast) ++ xs.drop (c.position + 3) := by
        rw [hXt, hXd, List.append_assoc, keyx, ← List.append_assoc]
      have hY : (prey ++ ys.drop base).take (c.position + off) ++
            runOf cl.y c ++
            (prey ++ ys.drop base).drop (c.position + off + 4) =
          (prey ++ (ys.drop base).take (c.position - base) ++
              (runOf cl.y c).dropLast) ++ ys.drop (c.position + 3) := by
        rw [hYt, hYd, List.append_assoc, keyy, ← List.append_assoc]
      have hpx2 : off + ((runOf cl.x c).length - 4) + (c.position + 3) =
          (prex ++ (xs.drop base).take (c.position - base) ++
            (runOf cl.x c).dropLast).length := by
        simp only [List.length_append, List.length_take, List.length_drop,
          List.length_dropLast]
        omega
      have hpy2 : off + ((runOf cl.x c).length - 4) + (c.position + 3) =
          (prey ++ (ys.drop base).take (c.position - base) ++
            (runOf cl.y c).dropLast).length := by
        simp only [List.length_append, List.length_take, List.length_drop,
          List.length_dropLast]
        omega
      rw [List.foldl_cons, hstep, hX, hY,
        applyFold_spec cl rest
          (segs.set c.segment_id
            ⟨(segs.getD c.segment_id ⟨0⟩).length +
              ((runOf cl.x c).length - 4)⟩)
          (prex ++ (xs.drop base).take (c.position - base) ++
            (runOf cl.x c).dropLast)
          (prey ++ (ys.drop base).take (c.position - base) ++
            (runOf cl.y c).dropLast)
          xs ys (off + ((runOf cl.x c).length - 4)) (c.position + 3)
          hpx2 hpy2 hlen2 hrestx hresty]
      simp only [List.map_cons, specPatch, bumpSegs, List.foldl_cons,
        List.sum_cons, Prod.mk.injEq, Path.mk.injEq]
      refine ⟨⟨trivial, ?_, ?_⟩, by omega⟩
      · simp [List.append_assoc]
      · simp [List.append_assoc]

theorem specPatch_head (xs : List ℚ) :
    ∀ (recs : List (ℕ × List ℚ)) (base : ℕ), ValidRecs xs base recs →
      base < xs.length →
      specPatch xs base recs =
        xs.getD base 0 :: (specPatch xs base recs).drop 1
  | [], base, _, hlt => by
      rw [specPatch, List.drop_drop, List.getD_eq_getElem xs 0 hlt]
      exact List.drop_eq_getElem_cons hlt
  | (p, r) :: rest, base, hv, hlt => by
      simp only [ValidRecs] at hv
      obtain ⟨hbp, hlen4, hspan, hfirst, hlast, hrest⟩ := hv
      by_cases hpb : base < p
      · obtain ⟨k, hk⟩ : ∃ k, p - base = k + 1 := ⟨p - base - 1, by omega⟩
        rw [specPatch, hk, List.drop_eq_getElem_cons hlt, List.take_succ_cons,
          List.getD_eq_getElem xs 0 hlt]
        simp
      · have hbp2 : base = p := by omega
        subst hbp2
        match r, hlen4, hfirst with
        | a :: b :: r2, _, hfirst => ?_
        rw [specPatch, Nat.sub_self, List.take_zero, List.nil_append,
          List.dropLast_cons₂, List.cons_append]
        rw [List.getD_cons_zero] at hfirst
        rw [← hfirst]
        simp

theorem bumpSegs_getD (clx : List ℚ) :
    ∀ (recs : List Replace) (segs : List Segment) (sid : ℕ),
      (∀ c ∈ recs, c.segment_id < segs.length) →
      ((bumpSegs clx segs recs).getD sid ⟨0⟩).length =
        (segs.getD sid ⟨0⟩).length +
          ((recs.filter fun c => c.segment_id == sid).map
            fun c => (runOf clx c).length - 4).sum
  | [], segs, sid, _ => by simp [bumpSegs]
  | c :: rest, segs, sid, hseg => by
      have hc : c.segment_id < segs.length := hseg c (List.mem_cons_self c rest)
      have hrest : ∀ c2 ∈ rest,
          c2.segment_id < (segs.set c.segment_id
            ⟨(segs.getD c.segment_id ⟨0⟩).length +
              ((runOf clx c).length - 4)⟩).length := by
        rw [List.length_set]
        exact fun c2 h => hseg c2 (List.mem_cons_of_mem _ h)
      rw [show bumpSegs clx segs (c :: rest) =
        bumpSegs clx (segs.set c.segment_id
          ⟨(segs.getD c.segment_id ⟨0⟩).length +
            ((runOf clx c).length - 4)⟩) rest from rfl]
      rw [bumpSegs_getD clx rest _ sid hrest]
      by_cases hsid : c.segment_id = sid
      · subst hsid
        have hv : (segs.set c.segment_id
            ⟨(segs.getD c.segment_id ⟨0⟩).length +
              ((runOf clx c).length - 4)⟩).getD c.segment_id ⟨0⟩ =
            ⟨(segs.getD c.segment_id ⟨0⟩).length +
              ((runOf clx c).length - 4)⟩ := by
          rw [List.getD_eq_getElem _ _ (by rw [List.length_set]; exact hc)]
          exact List.getElem_set_self _
        rw [hv, List.filter_cons]
        simp only [beq_self_eq_true, if_true, List.map_cons, List.sum_cons]
        omega
      · have hv : (segs.set c.segment_id
            ⟨(segs.getD c.segment_id ⟨0⟩).length +
              ((runOf clx c).length - 4)⟩).getD sid ⟨0⟩ =
            segs.getD sid ⟨0⟩ := by
          by_cases hlt : sid < segs.length
          · rw [List.getD_eq_getElem _ _ (by rw [List.length_set]; exact hlt),
              List.getD_eq_getElem _ _ hlt, List.getElem_set, if_neg hsid]
          · rw [List.getD_eq_default _ _ (by rw [List.length_set]; omega),
              List.getD_eq_default _ _ (by omega)]
        rw [hv, List.filter_cons]
        have hne : (c.segment_id == sid) = false := by
          simp [hsid]
        rw [hne]
        simp

/-- C6: for every path and change list whose records reference in-bounds
replacement runs, whose owning segments exist, and whose record lists
(sorted by position) are valid against the path's x and y buffers —
positions ascending and at least 3 apart, every run at least 4 points
with first/last points equal to the path's points at the replaced span's
ends — `ChangeList::apply` processes the records in ascending
path-position order (first conjunct: the processed list is sorted), and
produces a path whose x/y buffers equal the original buffers with each
record's old 4-point span `[position, position + 3]` replaced by that
record's recorded points, later records landing at their original
position plus the cumulative point-count delta of earlier records
(`specPatch`, whose head-form unfolding — each span replaced verbatim by
its full run — is the final conjunct), and each affected segment's
recorded length grows by the point-count delta of its records. -/
theorem c6_change_list_apply (cl : ChangeList) (path : Path)
    (hb : ∀ c ∈ cl.changes, c.first_point ≤ c.one_past_last_point ∧
      c.one_past_last_point ≤ cl.x.length ∧
      c.one_past_last_point ≤ cl.y.length)
    (hseg : ∀ c ∈ cl.changes, c.segment_id < path.segments.length)
    (hx : ValidRecs path.x 0
      (cl.sortedChanges.map fun c => (c.position, runOf cl.x c)))
    (hy : ValidRecs path.y 0
      (cl.sortedChanges.map fun c => (c.position, runOf cl.y c))) :
    List.Pairwise (fun a b => a.position ≤ b.position) cl.sortedChanges ∧
      (cl.apply path).x = specPatch path.x 0
        (cl.sortedChanges.map fun c => (c.position, runOf cl.x c)) ∧
      (cl.apply path).y = specPatch path.y 0
        (cl.sortedChanges.map fun c => (c.position, runOf cl.y c)) ∧
      (∀ sid, ((cl.apply path).segments.getD sid ⟨0⟩).length =
        (path.segments.getD sid ⟨0⟩).length +
          ((cl.changes.filter fun c => c.segment_id == sid).map
            fun c => (runOf cl.x c).length - 4).sum) ∧
      (∀ base p r rest, ValidRecs path.x base ((p, r) :: rest) →
        specPatch path.x base ((p, r) :: rest) =
          (path.x.drop base).take (p - base) ++ r ++
            (specPatch path.x (p + 3) rest).drop 1) := by
  have hperm : cl.sortedChanges.Perm cl.changes :=
    List.perm_insertionSort _ cl.changes
  have hmem : ∀ c ∈ cl.sortedChanges, c ∈ cl.changes :=
    fun c hc => hperm.subset hc
  have hlen : ∀ c ∈ cl.sortedChanges,
      (runOf cl.y c).length = (runOf cl.x c).length := by
    intro c hc
    obtain ⟨h1, h2, h3⟩ := hb c (hmem c hc)
    rw [runOf_length _ _ h1 h3, runOf_length _ _ h1 h2]
  have happ := applyFold_spec cl cl.sortedChanges path.segments [] []
    path.x path.y 0 0 rfl rfl hlen hx hy
  simp only [List.nil_append, List.drop_zero] at happ
  have happ2 : cl.apply path =
      ⟨bumpSegs cl.x path.segments cl.sortedChanges,
        specPatch path.x 0
          (cl.sortedChanges.map fun c => (c.position, runOf cl.x c)),
        specPatch path.y 0
          (cl.sortedChanges.map fun c => (c.position, runOf cl.y c))⟩ := by
    rw [ChangeList.apply, happ]
  refine ⟨?_, ?_, ?_, ?_, ?_⟩
  · haveI : IsTotal Replace (fun a b => a.position ≤ b.position) :=
      ⟨fun a b => Nat.le_total a.position b.position⟩
    haveI : IsTrans Replace (fun a b => a.position ≤ b.position) :=
      ⟨fun _ _ _ hab hbc => le_trans hab hbc⟩
    exact List.sorted_insertionSort _ _
  · rw [happ2]
  · rw [happ2]
  · intro sid
    rw [happ2]
    rw [bumpSegs_getD cl.x cl.sortedChanges path.segments sid
      (fun c hc => hseg c (hmem c hc))]
    congr 1
    exact List.Perm.sum_eq (List.Perm.map _ (List.Perm.filter _ hperm))
  · intro base p r rest hv
    have hv2 := hv
    simp only [ValidRecs] at hv2
    obtain ⟨hbp, hlen4, hspan, hfirst, hlast, hrest⟩ := hv2
    have hh := specPatch_head path.x rest (p + 3) hrest hspan
    have hrne : r ≠ [] := by
      intro h
      rw [h] at hlen4
      simp at hlen4
    have hglast : r.getLast hrne = path.x.getD (p + 3) 0 := by
      rw [List.getLast_eq_getElem]
      have e1 := List.getD_eq_getElem r 0
        (show r.length - 1 < r.length by omega)
      rw [← e1]
      exact hlast
    have key : r.dropLast ++
        path.x.getD (p + 3) 0 :: (specPatch path.x (p + 3) rest).drop 1 =
        r ++ (specPatch path.x (p + 3) rest).drop 1 := by
      conv_rhs => rw [← List.dropLast_append_getLast hrne]
      rw [List.append_assoc, List.singleton_append, hglast]
    rw [specPatch]
    conv_lhs => rw [hh]
    rw [List.append_assoc, key, ← List.append_assoc]

/-- C10: on the vertical pair `p = (5,1)`, `q = (5,12)` (the source's own
vertical-line test input), `Line::between` takes its approximately-equal-x
branch and returns `Line::new(5, 0, 0)`, which normalizes to the line
`x = 0` through the origin: the signed distance to `p` is 5, not 0 (and 5
exceeds the 1e-5 tolerance), so the constructed line does not pass
through the two points.  The spec's stated property is the evident intent
of `between`; the branch drops the `-p1.x` constant term. -/
theorem c10_between_code_bug :
    (⟨5, 1⟩ : RPoint) ≠ (⟨5, 12⟩ : RPoint) ∧
      (Line.between ⟨5, 1⟩ ⟨5, 12⟩).signed_distance_to ⟨5, 1⟩ = 5 ∧
      ¬ |(Line.between ⟨5, 1⟩ ⟨5, 12⟩).signed_distance_to ⟨5, 1⟩ - 0| ≤
          (f32Threshold : ℝ) := by
  have hsqrt : Real.sqrt ((5 : ℝ) * 5 + 0 * 0) = 5 := by
    rw [show (5 : ℝ) * 5 + 0 * 0 = 5 ^ 2 by norm_num]
    exact Real.sqrt_sq (by norm_num)
  have hb : Line.between ⟨5, 1⟩ ⟨5, 12⟩ = Line.new 5 0 0 := by
    rw [Line.between, if_pos]
    simp [f32Threshold]
  have hd : (Line.between ⟨5, 1⟩ ⟨5, 12⟩).signed_distance_to ⟨5, 1⟩ = 5 := by
    rw [hb, Line.new]
    simp only [Line.signed_distance_to, hsqrt]
    norm_num
  refine ⟨?_, hd, ?_⟩
  · intro h
    have := congrArg RPoint.y h
    norm_num at this
  · rw [hd]
    rw [f32Threshold]
    intro h
    rw [abs_of_pos (by norm_num)] at h
    norm_num at h

/-- Closed instance of the C6 theorem on the repository's own
change-list test: the patched x buffer matches both `specPatch` and the
test's expected literal buffer, and the segment's recorded length grows
from 6 to 9. -/
theorem c6_change_list_apply_witness :
    (c6TestChanges.apply c6TestPath).x = specPatch c6TestPath.x 0
        (c6TestChanges.sortedChanges.map
          fun c => (c.position, runOf c6TestChanges.x c)) ∧
      (c6TestChanges.apply c6TestPath).x =
        [1, -2, -3, -4, -5, -6, 4, 100, 100, 7] ∧
      ((c6TestChanges.apply c6TestPath).segments.getD 0 ⟨0⟩).length = 9 :=
  ⟨(c6_change_list_apply c6TestChanges c6TestPath (by decide) (by decide)
      ⟨by decide, by decide, by decide, rfl, rfl,
        by decide, by decide, by decide, rfl, rfl, trivial⟩
      ⟨by decide, by decide, by decide, rfl, rfl,
        by decide, by decide, by decide, rfl, rfl, trivial⟩).2.1,
   rfl, rfl⟩

/-- Witness for C8 at `t = 1/2`, `s = 1/3` on a concrete curve. -/
theorem c8_split_consistency_witness :
    (0 : ℚ) < 1 / 2 ∧ (1 : ℚ) / 2 < 1 ∧ (0 : ℚ) ≤ 1 / 3 ∧ (1 : ℚ) / 3 ≤ 1 ∧
      (evaluate (split sampleCubic (1 / 2)).1 (1 / 3) =
          evaluate sampleCubic (1 / 3 * (1 / 2)) ∧
        evaluate (split sampleCubic (1 / 2)).2 (1 / 3) =
          evaluate sampleCubic (1 / 2 + 1 / 3 * (1 - 1 / 2))) :=
  ⟨by norm_num, by norm_num, by norm_num, by norm_num,
    c8_split_consistency sampleCubic (1 / 2) (1 / 3)
      (by norm_num) (by norm_num) (by norm_num) (by norm_num)⟩

end Shiny
